import Mathlib

set_option maxHeartbeats 1000000

/-! Shallow embedding of the runtimex scheduling core
    (src/backend/models.py, src/backend/scheduler.py,
    src/backend/notifications.py).

    Conventions: `datetime` and `timedelta` are modelled as integers;
    every place where the Python code reads the clock (`datetime.now()`)
    becomes an explicit `now` argument.  Python dicts are association
    lists that preserve insertion order, like Python dicts do.  A raised
    exception (the TypeError obtained by subtracting a `None` timestamp)
    is modelled as `Except.error st` where `st` is the object's state at
    the moment the exception propagates, since Python leaves earlier
    field assignments in place. -/

inductive StepStatus where
  | pending
  | ready
  | running
  | paused
  | completed
  | skipped
  | error
deriving DecidableEq, Repr

inductive StepType where
  | fixedDuration
  | task
  | fixedStart
  | automatedTask
deriving DecidableEq, Repr

structure Step where
  id : String
  name : String
  duration : Int
  step_type : StepType
  dependencies : List String
  notes : Option String
  metadata : List (String × String)
  resource_needed : Option String
  scheduled_start_time : Option Int
  scheduled_end_time : Option Int
  actual_start_time : Option Int
  actual_end_time : Option Int
  elapsed_time : Int
  status : StepStatus
  latest_allowed_start_time : Option Int
  earliest_possible_start_time : Option Int
deriving DecidableEq, Repr

/-- Step.__init__ (models.py 25-63).  `id` stands for the generated
    uuid4 string.  A `None` dependencies/metadata argument becomes the
    empty collection in Python, so the model takes the collections
    directly.  A Task step without an explicit resource gets the default
    resource token; the scheduled end is derived from the preset
    scheduled start when one is given. -/
def Step.init (id name : String) (duration : Int) (step_type : StepType)
    (dependencies : List String) (scheduled_start_time : Option Int)
    (notes : Option String) (metadata : List (String × String))
    (resource_needed : Option String) : Step :=
  { id := id
    name := name
    duration := duration
    step_type := step_type
    dependencies := dependencies
    notes := notes
    metadata := metadata
    resource_needed :=
      match resource_needed, step_type with
      | none, StepType.task => some "user_attention"
      | r, _ => r
    scheduled_start_time := scheduled_start_time
    scheduled_end_time := scheduled_start_time.map (fun t => t + duration)
    actual_start_time := none
    actual_end_time := none
    elapsed_time := 0
    status := StepStatus.pending
    latest_allowed_start_time := none
    earliest_possible_start_time := none }

/-- Step.start (models.py 65-75): only a Ready or Paused step starts;
    otherwise a warning is printed and nothing changes. -/
def Step.start (s : Step) (start_time : Option Int) (now : Int) : Step :=
  if s.status = StepStatus.ready ∨ s.status = StepStatus.paused then
    { s with actual_start_time := some (start_time.getD now)
             status := StepStatus.running }
  else s

/-- Step.pause (models.py 77-90): non-pausable types and non-Running
    steps are rejected with a warning; a Running step accumulates the
    active interval and becomes Paused.  A Running step whose
    actual_start_time is unset would make Python subtract None,
    raising a TypeError before any assignment. -/
def Step.pause (s : Step) (now : Int) : Except Step Step :=
  if s.step_type = StepType.fixedDuration ∨ s.step_type = StepType.fixedStart
      ∨ s.step_type = StepType.automatedTask then
    Except.ok s
  else if s.status = StepStatus.running then
    match s.actual_start_time with
    | some t0 =>
        Except.ok { s with elapsed_time := s.elapsed_time + (now - t0)
                           status := StepStatus.paused }
    | none => Except.error s
  else Except.ok s

/-- Step.complete (models.py 93-105): rejected unless Running or Paused;
    records the actual end, and when completing from Running also flushes
    the active interval into elapsed_time.  In the Running case Python
    assigns actual_end_time before the elapsed_time line, so the
    TypeError state keeps that assignment. -/
def Step.complete (s : Step) (end_time : Option Int) (now : Int) : Except Step Step :=
  if s.status = StepStatus.running ∨ s.status = StepStatus.paused then
    let ae := end_time.getD now
    if s.status = StepStatus.running then
      match s.actual_start_time with
      | some t0 =>
          Except.ok { s with actual_end_time := some ae
                             elapsed_time := s.elapsed_time + (ae - t0)
                             status := StepStatus.completed }
      | none => Except.error { s with actual_end_time := some ae }
    else
      Except.ok { s with actual_end_time := some ae
                         status := StepStatus.completed }
  else Except.ok s

/-- Step.update_status (models.py 108-111): unconditional overwrite. -/
def Step.update_status (s : Step) (st : StepStatus) : Step :=
  { s with status := st }

/-- the state of the step object after a call that may raise: Python
    leaves the object as it was at the moment the exception propagated. -/
def stepOutcome : Except Step Step → Step
  | Except.ok s => s
  | Except.error s => s

structure Experiment where
  id : String
  name : String
  description : Option String
  steps : List (String × Step)
deriving DecidableEq, Repr

/-- Experiment.__init__ (models.py 139-144). -/
def Experiment.init (id name : String) (description : Option String) : Experiment :=
  { id := id, name := name, description := description, steps := [] }

/-- Experiment.add_step (models.py 146-151): duplicate step ids are
    rejected with a warning. -/
def Experiment.add_step (e : Experiment) (s : Step) : Experiment :=
  if (e.steps.lookup s.id).isSome then e
  else { e with steps := e.steps ++ [(s.id, s)] }

/-- Experiment.get_step (models.py 153-154). -/
def Experiment.get_step (e : Experiment) (step_id : String) : Option Step :=
  e.steps.lookup step_id

structure Scheduler where
  experiments : List (String × Experiment)
  schedule : List (String × Step)
deriving DecidableEq, Repr

/-- Scheduler.__init__ (scheduler.py 11-15). -/
def Scheduler.empty : Scheduler :=
  { experiments := [], schedule := [] }

/-- Scheduler.get_step (scheduler.py 32-34). -/
def Scheduler.get_step (sch : Scheduler) (step_id : String) : Option Step :=
  sch.schedule.lookup step_id

/-- Python mutates the step object stored in the registry in place; the
    model rewrites the entry under that key. -/
def Scheduler.setStep (sch : Scheduler) (k : String) (v : Step) : Scheduler :=
  { sch with schedule := sch.schedule.map (fun p => if p.1 = k then (k, v) else p) }

/-- Scheduler.add_experiment (scheduler.py 17-30): duplicate experiment
    ids are rejected whole; a colliding step id is skipped with a
    warning while the rest of the experiment's steps are still added. -/
def Scheduler.add_experiment (sch : Scheduler) (e : Experiment) : Scheduler :=
  if (sch.experiments.lookup e.id).isSome then sch
  else
    { experiments := sch.experiments ++ [(e.id, e)]
      schedule := e.steps.foldl
        (fun acc p => if (acc.lookup p.1).isSome then acc else acc ++ [p])
        sch.schedule }

/-- loop body of Scheduler._resolve_dependencies (scheduler.py 36-59):
    a missing dependency or one with neither an actual nor a scheduled
    end makes the whole resolution return None; otherwise the running
    maximum of the dependency end times is accumulated.  Python's
    `actual or scheduled` is an or-chain on datetimes, which are never
    falsy, hence Option.orElse. -/
def Scheduler.resolveDepsAux (sch : Scheduler) : List String → Option Int → Option Int
  | [], earliest => earliest
  | dep_id :: rest, earliest =>
    match sch.get_step dep_id with
    | none => none
    | some dep =>
      match dep.actual_end_time.orElse (fun _ => dep.scheduled_end_time) with
      | none => none
      | some dep_end =>
        Scheduler.resolveDepsAux sch rest
          (match earliest with
           | none => some dep_end
           | some e => if dep_end > e then some dep_end else some e)

/-- Scheduler._resolve_dependencies (scheduler.py 36-59); None both for
    an unresolvable dependency and for an empty dependency list. -/
def Scheduler.resolve_dependencies (sch : Scheduler) (step : Step) : Option Int :=
  Scheduler.resolveDepsAux sch step.dependencies none

/-- the mutation applied when the scheduling loop places a step
    (scheduler.py 88-104): scheduled start, derived scheduled end, and
    earliest possible start are assigned together. -/
def placeStep (step : Step) (ss eps : Int) : Step :=
  { step with scheduled_start_time := some ss
              scheduled_end_time := some (ss + step.duration)
              earliest_possible_start_time := some eps }

/-- the worklist loop of calculate_initial_schedule (scheduler.py 75-108).
    The fuel argument is the remaining iteration budget
    (MAX_ITERATIONS = 2 x number of steps); each pop from the head of
    the worklist consumes one unit, and exhaustion leaves the remaining
    items unplaced.  The worklist holds registry keys; Python holds the
    aliased step objects, so each pop re-reads the current object state,
    and the processed set stores the object's id field.  The
    `if step.scheduled_start_time:` safety check on line 100 is always
    true at that point (a datetime is never falsy), so its else branch
    is dead code and not modelled. -/
def schedLoop : Nat → Scheduler → Int → List String → List String → Scheduler × List String
  | _, sch, _, _, [] => (sch, [])
  | 0, sch, _, _, work => (sch, work)
  | Nat.succ fuel, sch, base_time, processed, step_id :: rest =>
    match sch.get_step step_id with
    | none => schedLoop fuel sch base_time processed rest
    | some step =>
      if step.id ∈ processed ∨ step.status ≠ StepStatus.pending then
        schedLoop fuel sch base_time processed rest
      else
        let earliest_dep_start := sch.resolve_dependencies step
        if step.dependencies = [] then
          let ss := step.scheduled_start_time.getD base_time
          schedLoop fuel
            (sch.setStep step_id (placeStep step ss (earliest_dep_start.getD base_time)))
            base_time (processed ++ [step.id]) rest
        else
          match earliest_dep_start with
          | some floor =>
            let ss := step.scheduled_start_time.getD floor
            schedLoop fuel
              (sch.setStep step_id (placeStep step ss floor))
              base_time (processed ++ [step.id]) rest
          | none => schedLoop fuel sch base_time processed (rest ++ [step_id])

/-- the dependency scan inside update_ready_status (scheduler.py 123-133):
    None when some dependency is missing or not Completed; otherwise
    `some acc` where acc is the running latest actual_end_time among the
    dependencies (None when no dependency carries one). -/
def depsMet (sch : Scheduler) : List String → Option Int → Option (Option Int)
  | [], acc => some acc
  | dep_id :: rest, acc =>
    match sch.get_step dep_id with
    | none => none
    | some dep =>
      if dep.status = StepStatus.completed then
        depsMet sch rest
          (match dep.actual_end_time, acc with
           | none, a => a
           | some ae, none => some ae
           | some ae, some cur => if ae > cur then some ae else some cur)
      else none

/-- per-step body of update_ready_status (scheduler.py 121-141): a
    Pending step whose dependencies are all Completed flips to Ready and
    refreshes earliest_possible_start_time from the latest actual
    completion, keeping the prior value when none exists. -/
def updateReadyOne (sch : Scheduler) (step_id : String) : Scheduler :=
  match sch.get_step step_id with
  | none => sch
  | some step =>
    if step.status = StepStatus.pending then
      match depsMet sch step.dependencies none with
      | none => sch
      | some eds =>
        sch.setStep step_id
          { step with status := StepStatus.ready
                      earliest_possible_start_time :=
                        eds.orElse (fun _ => step.earliest_possible_start_time) }
    else sch

/-- Scheduler.update_ready_status (scheduler.py 118-141): one pass over
    the registry in insertion order.  The `now` computed on line 120 of
    the source is never used. -/
def Scheduler.update_ready_status (sch : Scheduler) : Scheduler :=
  (sch.schedule.map Prod.fst).foldl updateReadyOne sch

/-- Scheduler.calculate_initial_schedule (scheduler.py 61-115): base
    time defaults to the clock, the worklist starts as the whole
    registry, the iteration budget is twice its size, and one readiness
    pass runs afterwards. -/
def Scheduler.calculate_initial_schedule (sch : Scheduler) (start_time : Option Int)
    (now : Int) : Scheduler :=
  let base_time := start_time.getD now
  let work := sch.schedule.map Prod.fst
  (schedLoop (work.length * 2) sch base_time [] work).1.update_ready_status

/-- Scheduler.check_for_conflicts (scheduler.py 145-159): the body
    prints a notice, builds an empty list, and returns it; the pairwise
    overlap sketch is commented out in the source. -/
def Scheduler.check_for_conflicts (_sch : Scheduler) : List (Step × Step) :=
  []

/-- Scheduler.handle_step_start (scheduler.py 161-173): on a known id,
    apply Step.start with the explicit or current time, then run the
    readiness pass; unknown ids only log. -/
def Scheduler.handle_step_start (sch : Scheduler) (step_id : String)
    (start_time : Option Int) (now : Int) : Scheduler :=
  match sch.get_step step_id with
  | some step =>
    let actual_start := start_time.getD now
    (sch.setStep step_id (step.start (some actual_start) now)).update_ready_status
  | none => sch

/-- Scheduler.handle_step_pause (scheduler.py 175-184): on a known id,
    apply Step.pause; no readiness pass follows.  An error propagates
    the TypeError with the registry keeping the step's state. -/
def Scheduler.handle_step_pause (sch : Scheduler) (step_id : String) (now : Int) :
    Except Scheduler Scheduler :=
  match sch.get_step step_id with
  | some step =>
    match step.pause now with
    | Except.ok s' => Except.ok (sch.setStep step_id s')
    | Except.error s' => Except.error (sch.setStep step_id s')
  | none => Except.ok sch

/-- Scheduler.handle_step_complete (scheduler.py 186-199): on a known
    id, apply Step.complete with the explicit or current time, then run
    the readiness pass; when Step.complete raises, the exception
    propagates before the readiness pass is reached. -/
def Scheduler.handle_step_complete (sch : Scheduler) (step_id : String)
    (end_time : Option Int) (now : Int) : Except Scheduler Scheduler :=
  match sch.get_step step_id with
  | some step =>
    let actual_end := end_time.getD now
    match step.complete (some actual_end) now with
    | Except.ok s' => Except.ok ((sch.setStep step_id s').update_ready_status)
    | Except.error s' => Except.error (sch.setStep step_id s')
  | none => Except.ok sch

/-- the registry state after a handler call that may raise. -/
def schedOutcome : Except Scheduler Scheduler → Scheduler
  | Except.ok s => s
  | Except.error s => s

/-! Notification layer (src/backend/notifications.py).  Enum values are
    their wire strings; parsing an unknown string raises ValueError in
    Python, modelled as Option.  JSON values inside metadata and action
    data dicts are abstracted as strings, carried through serialization
    verbatim exactly as Python carries the dict object.  The ISO-8601
    datetime encoding is injective with an exact round-trip, so the
    created_at wire field carries the integer timestamp directly. -/

inductive NotificationType where
  | stepReady
  | stepCompleted
  | stepPaused
  | stepTimeout
  | resourceConflict
  | userAttentionRequired
  | generalInfo
  | errorKind
  | custom
deriving DecidableEq, Repr

/-- the .value string of NotificationType (notifications.py 8-17). -/
def NotificationType.val : NotificationType → String
  | stepReady => "step_ready"
  | stepCompleted => "step_completed"
  | stepPaused => "step_paused"
  | stepTimeout => "step_timeout"
  | resourceConflict => "resource_conflict"
  | userAttentionRequired => "user_attention_required"
  | generalInfo => "general_info"
  | errorKind => "error"
  | custom => "custom"

/-- NotificationType(value): the enum constructor lookup by value. -/
def NotificationType.parse (s : String) : Option NotificationType :=
  if s = "step_ready" then some stepReady
  else if s = "step_completed" then some stepCompleted
  else if s = "step_paused" then some stepPaused
  else if s = "step_timeout" then some stepTimeout
  else if s = "resource_conflict" then some resourceConflict
  else if s = "user_attention_required" then some userAttentionRequired
  else if s = "general_info" then some generalInfo
  else if s = "error" then some errorKind
  else if s = "custom" then some custom
  else none

inductive NotificationPriority where
  | low
  | medium
  | high
  | critical
deriving DecidableEq, Repr

/-- the .value string of NotificationPriority (notifications.py 20-24). -/
def NotificationPriority.val : NotificationPriority → String
  | low => "low"
  | medium => "medium"
  | high => "high"
  | critical => "critical"

/-- NotificationPriority(value). -/
def NotificationPriority.parse (s : String) : Option NotificationPriority :=
  if s = "low" then some low
  else if s = "medium" then some medium
  else if s = "high" then some high
  else if s = "critical" then some critical
  else none

inductive DeliveryMethod where
  | inApp
  | email
  | push
  | sms
deriving DecidableEq, Repr

/-- the .value string of DeliveryMethod (notifications.py 27-31). -/
def DeliveryMethod.val : DeliveryMethod → String
  | inApp => "in_app"
  | email => "email"
  | push => "push"
  | sms => "sms"

/-- DeliveryMethod(value). -/
def DeliveryMethod.parse (s : String) : Option DeliveryMethod :=
  if s = "in_app" then some inApp
  else if s = "email" then some email
  else if s = "push" then some push
  else if s = "sms" then some sms
  else none

inductive ActionType where
  | link
  | button
  | form
  | dismiss
  | snooze
deriving DecidableEq, Repr

/-- the .value string of ActionType (notifications.py 34-39). -/
def ActionType.val : ActionType → String
  | link => "link"
  | button => "button"
  | form => "form"
  | dismiss => "dismiss"
  | snooze => "snooze"

/-- ActionType(value). -/
def ActionType.parse (s : String) : Option ActionType :=
  if s = "link" then some link
  else if s = "button" then some button
  else if s = "form" then some form
  else if s = "dismiss" then some dismiss
  else if s = "snooze" then some snooze
  else none

structure NotificationAction where
  id : String
  type : ActionType
  label : String
  data : List (String × String)
deriving DecidableEq, Repr

/-- the dict produced by NotificationAction.to_dict (notifications.py
    53-59). -/
structure ActionDict where
  id : String
  type : String
  label : String
  data : List (String × String)
deriving DecidableEq, Repr

/-- NotificationAction.to_dict (notifications.py 53-59). -/
def NotificationAction.to_dict (a : NotificationAction) : ActionDict :=
  { id := a.id, type := a.type.val, label := a.label, data := a.data }

structure Notification where
  id : String
  title : String
  message : String
  type : NotificationType
  priority : NotificationPriority
  target_users : List String
  experiment_id : Option String
  step_id : Option String
  metadata : List (String × String)
  actions : List NotificationAction
  delivery_methods : List DeliveryMethod
  created_at : Int
  is_read : Bool
  is_dismissed : Bool
deriving DecidableEq, Repr

/-- Notification.__init__ (notifications.py 63-87).  `id` stands for the
    generated uuid4 and `now` for datetime.now(); None arguments for the
    collection parameters become the documented defaults, so the model
    takes those as Option. -/
def Notification.init (id : String) (title message : String)
    (notification_type : NotificationType) (priority : NotificationPriority)
    (target_users : Option (List String)) (experiment_id step_id : Option String)
    (metadata : Option (List (String × String)))
    (actions : Option (List NotificationAction))
    (delivery_methods : Option (List DeliveryMethod)) (now : Int) : Notification :=
  { id := id
    title := title
    message := message
    type := notification_type
    priority := priority
    target_users := target_users.getD []
    experiment_id := experiment_id
    step_id := step_id
    metadata := metadata.getD []
    actions := actions.getD []
    delivery_methods := delivery_methods.getD [DeliveryMethod.inApp]
    created_at := now
    is_read := false
    is_dismissed := false }

/-- the dict produced by Notification.to_dict (notifications.py 89-105). -/
structure NotificationDict where
  id : String
  title : String
  message : String
  type : String
  priority : String
  target_users : List String
  experiment_id : Option String
  step_id : Option String
  metadata : List (String × String)
  actions : List ActionDict
  delivery_methods : List String
  created_at : Int
  is_read : Bool
  is_dismissed : Bool
deriving DecidableEq, Repr

/-- Notification.to_dict (notifications.py 89-105). -/
def Notification.to_dict (n : Notification) : NotificationDict :=
  { id := n.id
    title := n.title
    message := n.message
    type := n.type.val
    priority := n.priority.val
    target_users := n.target_users
    experiment_id := n.experiment_id
    step_id := n.step_id
    metadata := n.metadata
    actions := n.actions.map NotificationAction.to_dict
    delivery_methods := n.delivery_methods.map DeliveryMethod.val
    created_at := n.created_at
    is_read := n.is_read
    is_dismissed := n.is_dismissed }

/-- the list comprehension `[DeliveryMethod(m) for m in ...]`
    (notifications.py 118): a single bad value raises, discarding the
    whole reconstruction. -/
def parseDeliveryMethods : List String → Option (List DeliveryMethod)
  | [] => some []
  | m :: rest =>
    match DeliveryMethod.parse m with
    | none => none
    | some d =>
      match parseDeliveryMethods rest with
      | none => none
      | some ds => some (d :: ds)

/-- the action-reconstruction loop of Notification.from_dict
    (notifications.py 128-135), appending in wire order. -/
def parseActions : List ActionDict → Option (List NotificationAction)
  | [] => some []
  | a :: rest =>
    match ActionType.parse a.type with
    | none => none
    | some ty =>
      match parseActions rest with
      | none => none
      | some acts => some ({ id := a.id, type := ty, label := a.label, data := a.data } :: acts)

/-- Notification.from_dict (notifications.py 107-137): reconstruct
    through the constructor, overwrite id / created_at / read flags,
    then append the parsed actions to the initially empty action list.
    Enum parsing raises ValueError on unknown values, hence Option. -/
def Notification.from_dict (d : NotificationDict) : Option Notification :=
  match NotificationType.parse d.type with
  | none => none
  | some ty =>
    match NotificationPriority.parse d.priority with
    | none => none
    | some pr =>
      match parseDeliveryMethods d.delivery_methods with
      | none => none
      | some dms =>
        match parseActions d.actions with
        | none => none
        | some acts =>
          some { id := d.id
                 title := d.title
                 message := d.message
                 type := ty
                 priority := pr
                 target_users := d.target_users
                 experiment_id := d.experiment_id
                 step_id := d.step_id
                 metadata := d.metadata
                 actions := acts
                 delivery_methods := dms
                 created_at := d.created_at
                 is_read := d.is_read
                 is_dismissed := d.is_dismissed }

/-! Relational description of what one readiness pass may do to a single
    step: either nothing, or the Pending-to-Ready flip that also rewrites
    earliest_possible_start_time. -/

def StepUpd (s s' : Step) : Prop :=
  s' = s ∨ (s.status = StepStatus.pending ∧
    ∃ e, s' = { s with status := StepStatus.ready, earliest_possible_start_time := e })

def SchedUpd (sch sch' : Scheduler) : Prop :=
  sch'.schedule.map Prod.fst = sch.schedule.map Prod.fst ∧
  ∀ k s, sch.get_step k = some s → ∃ s', sch'.get_step k = some s' ∧ StepUpd s s'

/-! Specification-side predicates for the readiness pass. -/

/-- every dependency id maps to a registered step whose status is
    Completed. -/
def DepsCompleted (sch : Scheduler) (deps : List String) : Prop :=
  ∀ d ∈ deps, ∃ ds, sch.get_step d = some ds ∧ ds.status = StepStatus.completed

/-- some dependency's registered step carries actual end time m. -/
def DepActualEnd (sch : Scheduler) (deps : List String) (m : Int) : Prop :=
  ∃ d ∈ deps, ∃ ds, sch.get_step d = some ds ∧ ds.actual_end_time = some m

/-- no dependency's registered step carries an actual end time. -/
def NoDepActualEnd (sch : Scheduler) (deps : List String) : Prop :=
  ∀ d ∈ deps, ∀ ds, sch.get_step d = some ds → ds.actual_end_time = none

/-- e is exactly the latest actual completion time among the
    dependencies, none when no dependency has one. -/
def LatestDepEnd (sch : Scheduler) (deps : List String) (e : Option Int) : Prop :=
  (e = none → NoDepActualEnd sch deps) ∧
  ∀ m, e = some m →
    DepActualEnd sch deps m ∧ ∀ m', DepActualEnd sch deps m' → m' ≤ m

/-! Relational description of what the scheduling worklist may do to a
    single step: either nothing, or the placement that assigns a
    scheduled start, the derived scheduled end, and an earliest possible
    start. -/

def PlaceUpd (s s' : Step) : Prop :=
  s' = s ∨ (s.status = StepStatus.pending ∧
    ∃ a b, s' = { s with scheduled_start_time := some a
                         scheduled_end_time := some (a + s.duration)
                         earliest_possible_start_time := some b })

def SchedPlace (sch sch' : Scheduler) : Prop :=
  sch'.schedule.map Prod.fst = sch.schedule.map Prod.fst ∧
  ∀ k s, sch.get_step k = some s → ∃ s', sch'.get_step k = some s' ∧ PlaceUpd s s'

/-- Completed and Skipped are the terminal statuses of the spec. -/
def TerminalStatus (st : StepStatus) : Prop :=
  st = StepStatus.completed ∨ st = StepStatus.skipped

/-- the scheduled-window invariant of the spec:
    scheduled_end == scheduled_start + duration whenever the start is
    set. -/
def StepInv (s : Step) : Prop :=
  ∀ t, s.scheduled_start_time = some t → s.scheduled_end_time = some (t + s.duration)

/-- every registry value satisfies the scheduled-window invariant. -/
def AllInv (sch : Scheduler) : Prop :=
  ∀ p ∈ sch.schedule, StepInv p.2

/-- every registry entry is keyed by its step object's id field, as the
    Python registry is. -/
def WellKeyedL (sch : Scheduler) : Prop :=
  ∀ p ∈ sch.schedule, p.2.id = p.1

/-- a step built by Step.__init__ with some argument vector. -/
def IsInitStep (s : Step) : Prop :=
  ∃ id name dur ty deps sst notes md res,
    s = Step.init id name dur ty deps sst notes md res

/-- the scheduler states reachable through the operations of the core:
    the empty engine, registration of an experiment whose steps come
    from the Step constructor, the initial scheduling pass, the three
    event handlers (with the registry state an exception leaves behind),
    and the readiness pass. -/
inductive Reach : Scheduler → Prop where
  | empty : Reach Scheduler.empty
  | add (sch : Scheduler) (e : Experiment) : Reach sch →
      (∀ p ∈ e.steps, IsInitStep p.2) → Reach (sch.add_experiment e)
  | calcPass (sch : Scheduler) (t : Option Int) (now : Int) : Reach sch →
      Reach (sch.calculate_initial_schedule t now)
  | hstart (sch : Scheduler) (id : String) (t : Option Int) (now : Int) : Reach sch →
      Reach (sch.handle_step_start id t now)
  | hpause (sch : Scheduler) (id : String) (now : Int) : Reach sch →
      Reach (schedOutcome (sch.handle_step_pause id now))
  | hcomplete (sch : Scheduler) (id : String) (t : Option Int) (now : Int) : Reach sch →
      Reach (schedOutcome (sch.handle_step_complete id t now))
  | upd (sch : Scheduler) : Reach sch → Reach sch.update_ready_status

/-- a sequence of start/pause rounds applied to a step: each pair (a, b)
    starts the step at a and pauses it at b through the real
    operations. -/
def runPauses (s : Step) : List (Int × Int) → Step
  | [] => s
  | ab :: rest => runPauses (stepOutcome ((s.start (some ab.1) ab.1).pause ab.2)) rest

/-! Concrete fixtures used by witnesses and counterexamples. -/

/-- an automated-task step holding the microscope, brought to Running
    through the real operations. -/
def stepC1c : Step :=
  (((Step.init "c1c" "Imaging C" 30 StepType.automatedTask [] none none []
      (some "microscope")).update_status StepStatus.ready).start (some 0) 0)

/-- a second automated-task step holding the microscope, Running. -/
def stepC1d : Step :=
  (((Step.init "c1d" "Imaging D" 45 StepType.automatedTask [] none none []
      (some "microscope")).update_status StepStatus.ready).start (some 0) 0)

def SchedC1 : Scheduler :=
  { experiments := [], schedule := [("c1c", stepC1c), ("c1d", stepC1d)] }

/-- a completed step with actual end 10, produced by the real start and
    complete operations. -/
def stepC2a : Step :=
  stepOutcome ((((Step.init "c2a" "Pretreat" 30 StepType.fixedDuration [] none none []
      none).update_status StepStatus.ready).start (some 0) 0).complete (some 10) 10)

/-- a pending step depending on the completed one. -/
def stepC2b : Step :=
  Step.init "c2b" "Treat" 60 StepType.fixedDuration ["c2a"] none none [] none

def SchedC2 : Scheduler :=
  { experiments := [], schedule := [("c2a", stepC2a), ("c2b", stepC2b)] }

/-- a pending dependency-free step whose scheduled start is preset to 5
    at construction. -/
def stepC3 : Step :=
  Step.init "c3x" "Preset" 10 StepType.fixedDuration [] (some 5) none [] none

def SchedC3 : Scheduler :=
  { experiments := [], schedule := [("c3x", stepC3)] }

/-- a pending dependency-free step with no preset scheduled start. -/
def stepC3f : Step :=
  Step.init "c3f" "Fresh" 10 StepType.fixedDuration [] none none [] none

def SchedC3f : Scheduler :=
  { experiments := [], schedule := [("c3f", stepC3f)] }

/-- a Running task step started at time 5. -/
def stepC4 : Step :=
  ((Step.init "c4p" "Wash" 4 StepType.task [] none none [] none).update_status
      StepStatus.ready).start (some 5) 5

/-- the registry of the C6 counterexample: a completed dependency, a
    pending dependent, and a running task. -/
def stepC6a : Step :=
  stepOutcome ((((Step.init "c6a" "Dep" 30 StepType.fixedDuration [] none none []
      none).update_status StepStatus.ready).start (some 0) 0).complete (some 10) 10)

def stepC6b : Step :=
  Step.init "c6b" "Dependent" 60 StepType.fixedDuration ["c6a"] none none [] none

def stepC6c : Step :=
  ((Step.init "c6c" "Active" 4 StepType.task [] none none [] none).update_status
      StepStatus.ready).start (some 5) 5

def SchedC6 : Scheduler :=
  { experiments := []
    schedule := [("c6a", stepC6a), ("c6b", stepC6b), ("c6c", stepC6c)] }

/-- a step completed through the real operations. -/
def stepC7 : Step :=
  stepOutcome ((((Step.init "c7s" "Done" 30 StepType.fixedDuration [] none none []
      none).update_status StepStatus.ready).start (some 0) 0).complete (some 10) 10)

/-- a terminal-status registry for the C7 witness. -/
def SchedC7 : Scheduler :=
  { experiments := [], schedule := [("c7s", stepC7)] }

/-- a two-step experiment built through the constructor, for the C8
    witness. -/
def expC8 : Experiment :=
  { id := "e8", name := "Exp8", description := none
    steps := [("c8a", Step.init "c8a" "A" 30 StepType.fixedDuration [] none none [] none),
              ("c8b", Step.init "c8b" "B" 60 StepType.fixedDuration ["c8a"] none none [] none)] }

def SchedC8 : Scheduler :=
  (Scheduler.empty.add_experiment expC8).calculate_initial_schedule (some 0) 0

/-- a fresh Ready task step with no elapsed time, for the C5 witness. -/
def stepC5 : Step :=
  (Step.init "c5t" "Stain" 8 StepType.task [] none none [] none).update_status
    StepStatus.ready

/-- the registry value step c8b holds in the reachable state SchedC8,
    spelled out for the closed C8 witness. -/
def vC8b : Step :=
  { id := "c8b", name := "B", duration := 60, step_type := StepType.fixedDuration,
    dependencies := ["c8a"], notes := none, metadata := [], resource_needed := none,
    scheduled_start_time := some 30, scheduled_end_time := some 90,
    actual_start_time := none, actual_end_time := none, elapsed_time := 0,
    status := StepStatus.pending, latest_allowed_start_time := none,
    earliest_possible_start_time := some 30 }

/-! Association-list lemmas about the registry. -/

theorem lookup_mem {l : List (String × Step)} {k : String} {v : Step}
    (h : l.lookup k = some v) : (k, v) ∈ l := by
  induction l with
  | nil => simp [List.lookup] at h
  | cons p t ih =>
    obtain ⟨a, b⟩ := p
    rw [List.lookup] at h
    split at h
    · next hk =>
        obtain rfl : k = a := by simpa using hk
        obtain rfl : b = v := by simpa using h
        exact List.mem_cons_self _ _
    · exact List.mem_cons_of_mem _ (ih h)

theorem lookup_isSome_iff_mem_keys {l : List (String × Step)} {k : String} :
    (l.lookup k).isSome ↔ k ∈ l.map Prod.fst := by
  induction l with
  | nil => simp [List.lookup]
  | cons p t ih =>
    obtain ⟨a, b⟩ := p
    rw [List.lookup]
    by_cases hk : k = a
    · subst hk; simp
    · have : (k == a) = false := by simpa using hk
      simp [this, hk, ih]

theorem lookup_update_self (l : List (String × Step)) (k : String) (v : Step) :
    (l.map (fun p => if p.1 = k then (k, v) else p)).lookup k
      = (l.lookup k).map (fun _ => v) := by
  induction l with
  | nil => rfl
  | cons p t ih =>
    obtain ⟨a, b⟩ := p
    simp only [List.map_cons]
    by_cases hk : a = k
    · subst hk
      rw [if_pos rfl, List.lookup, List.lookup]
      simp [ih]
    · rw [if_neg hk]
      have hk' : (k == a) = false := by
        simpa using fun h => hk h.symm
      rw [List.lookup, List.lookup, hk']
      exact ih

theorem lookup_update_ne (l : List (String × Step)) {k k' : String} (v : Step)
    (h : k' ≠ k) :
    (l.map (fun p => if p.1 = k then (k, v) else p)).lookup k' = l.lookup k' := by
  induction l with
  | nil => rfl
  | cons p t ih =>
    obtain ⟨a, b⟩ := p
    simp only [List.map_cons]
    by_cases hk : a = k
    · subst hk
      have hk' : (k' == a) = false := by simpa using h
      rw [if_pos rfl, List.lookup, List.lookup, hk']
      exact ih
    · rw [if_neg hk, List.lookup, List.lookup]
      cases hkk : (k' == a) with
      | true => rfl
      | false => exact ih

theorem keys_update (l : List (String × Step)) (k : String) (v : Step) :
    (l.map (fun p => if p.1 = k then (k, v) else p)).map Prod.fst = l.map Prod.fst := by
  induction l with
  | nil => rfl
  | cons p t ih =>
    obtain ⟨a, b⟩ := p
    by_cases hk : a = k
    · subst hk; simp [ih]
    · simp [hk, ih]

theorem mem_update {l : List (String × Step)} {k : String} {v : Step} {p : String × Step}
    (h : p ∈ l.map (fun q => if q.1 = k then (k, v) else q)) :
    p = (k, v) ∨ p ∈ l := by
  obtain ⟨q, hq, hmap⟩ := List.mem_map.mp h
  by_cases hk : q.1 = k
  · left; simp [hk] at hmap; exact hmap.symm
  · right; simp [hk] at hmap; exact hmap ▸ hq

theorem setStep_get_self (sch : Scheduler) (k : String) (v : Step) :
    (sch.setStep k v).get_step k = (sch.get_step k).map (fun _ => v) :=
  lookup_update_self _ _ _

theorem setStep_get_ne (sch : Scheduler) {k k' : String} (v : Step) (h : k' ≠ k) :
    (sch.setStep k v).get_step k' = sch.get_step k' :=
  lookup_update_ne _ _ h

theorem setStep_keys (sch : Scheduler) (k : String) (v : Step) :
    (sch.setStep k v).schedule.map Prod.fst = sch.schedule.map Prod.fst :=
  keys_update _ _ _

theorem get_step_mem {sch : Scheduler} {k : String} {s : Step}
    (h : sch.get_step k = some s) : (k, s) ∈ sch.schedule :=
  lookup_mem h

theorem get_step_none_of_keys {sch sch' : Scheduler}
    (hkeys : sch'.schedule.map Prod.fst = sch.schedule.map Prod.fst)
    {k : String} (h : sch.get_step k = none) : sch'.get_step k = none := by
  have h1 : ¬ (sch.get_step k).isSome := by simp [h]
  have h2 : k ∉ sch.schedule.map Prod.fst := fun hm =>
    h1 (lookup_isSome_iff_mem_keys.mpr hm)
  have h3 : ¬ (sch'.get_step k).isSome := fun hs =>
    h2 (hkeys ▸ lookup_isSome_iff_mem_keys.mp hs)
  cases hg : sch'.get_step k with
  | none => rfl
  | some s => exact absurd (by simp [hg]) h3


theorem stepUpd_refl (s : Step) : StepUpd s s := Or.inl rfl

theorem stepUpd_not_pending {s s' : Step} (h : StepUpd s s')
    (hp : s.status ≠ StepStatus.pending) : s' = s := by
  rcases h with h | ⟨hpend, _⟩
  · exact h
  · exact absurd hpend hp

theorem StepUpd.fields {s s' : Step} (h : StepUpd s s') :
    s'.dependencies = s.dependencies ∧ s'.actual_end_time = s.actual_end_time ∧
    s'.scheduled_start_time = s.scheduled_start_time ∧
    s'.scheduled_end_time = s.scheduled_end_time ∧ s'.duration = s.duration := by
  rcases h with rfl | ⟨_, e, rfl⟩ <;> exact ⟨rfl, rfl, rfl, rfl, rfl⟩

theorem StepUpd.completed_iff {s s' : Step} (h : StepUpd s s') :
    (s'.status = StepStatus.completed ↔ s.status = StepStatus.completed) := by
  rcases h with rfl | ⟨hpend, e, rfl⟩
  · exact Iff.rfl
  · simp [hpend]

theorem stepUpd_trans {s s' s'' : Step} (h1 : StepUpd s s') (h2 : StepUpd s' s'') :
    StepUpd s s'' := by
  rcases h1 with rfl | ⟨hp, e, rfl⟩
  · exact h2
  · rcases h2 with rfl | ⟨hp', _, _⟩
    · exact Or.inr ⟨hp, e, rfl⟩
    · simp at hp'


theorem schedUpd_refl (sch : Scheduler) : SchedUpd sch sch :=
  ⟨rfl, fun _ s h => ⟨s, h, stepUpd_refl s⟩⟩

theorem SchedUpd.get_none {sch sch' : Scheduler} (h : SchedUpd sch sch') {k : String}
    (hk : sch.get_step k = none) : sch'.get_step k = none :=
  get_step_none_of_keys h.1 hk

/-- the dependency scan of update_ready_status reads only the status and
    actual end of each dependency, and a readiness flip changes neither;
    hence the scan is stable across any prefix of the pass. -/
theorem depsMet_stable {sch sch' : Scheduler} (h : SchedUpd sch sch') :
    ∀ (deps : List String) (acc : Option Int), depsMet sch' deps acc = depsMet sch deps acc := by
  intro deps
  induction deps with
  | nil => intro acc; rfl
  | cons d rest ih =>
    intro acc
    cases hd : sch.get_step d with
    | none =>
        rw [depsMet, depsMet, hd, h.get_none hd]
    | some dep =>
        obtain ⟨dep', hd', hupd⟩ := h.2 d dep hd
        rw [depsMet, depsMet, hd, hd']
        dsimp only
        have hce := hupd.completed_iff
        have hae := hupd.fields.2.1
        by_cases hc : dep.status = StepStatus.completed
        · rw [if_pos hc, if_pos (hce.mpr hc), hae, ih]
        · rw [if_neg hc, if_neg (fun hc' => hc (hce.mp hc'))]

theorem updateReadyOne_upd {sch0 sch : Scheduler} (h : SchedUpd sch0 sch) (k : String) :
    SchedUpd sch0 (updateReadyOne sch k) := by
  rw [updateReadyOne]
  cases hk : sch.get_step k with
  | none => exact h
  | some step =>
    dsimp only
    by_cases hp : step.status = StepStatus.pending
    · rw [if_pos hp]
      cases hdm : depsMet sch step.dependencies none with
      | none => exact h
      | some eds =>
        refine ⟨?_, ?_⟩
        · rw [setStep_keys]; exact h.1
        · intro k' s hs
          obtain ⟨s', hs', hupd⟩ := h.2 k' s hs
          by_cases hkk : k' = k
          · subst hkk
            rw [setStep_get_self, hk]
            have : s' = step := by rw [hk] at hs'; exact ((Option.some.injEq _ _).mp hs').symm
            subst this
            exact ⟨_, rfl, stepUpd_trans hupd (Or.inr ⟨hp, _, rfl⟩)⟩
          · rw [setStep_get_ne _ _ hkk]
            exact ⟨s', hs', hupd⟩
    · rw [if_neg hp]; exact h

theorem foldl_updateReady_upd {sch0 : Scheduler} :
    ∀ (ks : List String) {sch : Scheduler}, SchedUpd sch0 sch →
      SchedUpd sch0 (ks.foldl updateReadyOne sch) := by
  intro ks
  induction ks with
  | nil => intro sch h; exact h
  | cons k rest ih =>
    intro sch h
    exact ih (updateReadyOne_upd h k)

theorem update_ready_status_upd (sch : Scheduler) :
    SchedUpd sch sch.update_ready_status :=
  foldl_updateReady_upd _ (schedUpd_refl sch)

theorem updateReadyOne_get_ne {sch : Scheduler} {k k' : String} (h : k' ≠ k) :
    (updateReadyOne sch k).get_step k' = sch.get_step k' := by
  rw [updateReadyOne]
  cases hk : sch.get_step k with
  | none => rfl
  | some step =>
    dsimp only
    by_cases hp : step.status = StepStatus.pending
    · rw [if_pos hp]
      cases hdm : depsMet sch step.dependencies none with
      | none => rfl
      | some eds => exact setStep_get_ne _ _ h
    · rw [if_neg hp]

theorem foldl_updateReady_get_ne {k : String} :
    ∀ (ks : List String) {sch : Scheduler}, k ∉ ks →
      (ks.foldl updateReadyOne sch).get_step k = sch.get_step k := by
  intro ks
  induction ks with
  | nil => intro sch _; rfl
  | cons j rest ih =>
    intro sch h
    have hj : k ≠ j := fun hkj => h (hkj ▸ List.mem_cons_self j rest)
    have hr : k ∉ rest := fun hm => h (List.mem_cons_of_mem _ hm)
    rw [List.foldl_cons, ih hr, updateReadyOne_get_ne hj]

theorem depsMet_isSome_iff (sch : Scheduler) :
    ∀ (deps : List String) (acc : Option Int),
      (depsMet sch deps acc).isSome ↔ DepsCompleted sch deps := by
  intro deps
  induction deps with
  | nil =>
    intro acc
    simp [depsMet, DepsCompleted]
  | cons d rest ih =>
    intro acc
    cases hd : sch.get_step d with
    | none =>
      rw [depsMet, hd]
      simp only [Option.isSome_none, Bool.false_eq_true, false_iff]
      intro hall
      obtain ⟨ds, hds, _⟩ := hall d (List.mem_cons_self d rest)
      rw [hd] at hds; cases hds
    | some dep =>
      rw [depsMet, hd]
      dsimp only
      by_cases hc : dep.status = StepStatus.completed
      · rw [if_pos hc, ih]
        constructor
        · intro hall
          intro d' hd'
          rcases List.mem_cons.mp hd' with rfl | hmem
          · exact ⟨dep, hd, hc⟩
          · exact hall d' hmem
        · intro hall d' hd'
          exact hall d' (List.mem_cons_of_mem _ hd')
      · rw [if_neg hc]
        simp only [Option.isSome_none, Bool.false_eq_true, false_iff]
        intro hall
        obtain ⟨ds, hds, hdc⟩ := hall d (List.mem_cons_self d rest)
        rw [hd] at hds
        injection hds with hds
        exact hc (hds ▸ hdc)

theorem depsMet_spec (sch : Scheduler) :
    ∀ (deps : List String) (acc e : Option Int), depsMet sch deps acc = some e →
      (e = none → acc = none ∧ NoDepActualEnd sch deps) ∧
      (∀ m, e = some m →
        (acc = some m ∨ DepActualEnd sch deps m) ∧
        (∀ a, acc = some a → a ≤ m) ∧
        (∀ m', DepActualEnd sch deps m' → m' ≤ m)) := by
  intro deps
  induction deps with
  | nil =>
    intro acc e h
    rw [depsMet] at h
    injection h with h
    subst h
    refine ⟨fun he => ⟨he, fun d hd => ?_⟩, fun m hm => ⟨Or.inl hm, ?_, ?_⟩⟩
    · simp at hd
    · intro a ha
      rw [hm] at ha
      injection ha with ha
      omega
    · intro m' hm'
      obtain ⟨d, hd, _⟩ := hm'
      simp at hd
  | cons d rest ih =>
    intro acc e h
    cases hd : sch.get_step d with
    | none =>
      rw [depsMet, hd] at h
      cases h
    | some dep =>
      rw [depsMet, hd] at h
      dsimp only at h
      by_cases hc : dep.status = StepStatus.completed
      · rw [if_pos hc] at h
        cases hae : dep.actual_end_time with
        | none =>
          rw [hae] at h
          dsimp only at h
          obtain ⟨h1, h2⟩ := ih acc e h
          refine ⟨fun he => ?_, fun m hm => ?_⟩
          · obtain ⟨hacc, hnone⟩ := h1 he
            refine ⟨hacc, fun d' hd' ds hds => ?_⟩
            rcases List.mem_cons.mp hd' with rfl | hmem
            · rw [hd] at hds; injection hds with hds; exact hds ▸ hae
            · exact hnone d' hmem ds hds
          · obtain ⟨hor, hacc, hub⟩ := h2 m hm
            refine ⟨?_, hacc, ?_⟩
            · rcases hor with h' | ⟨d', hd', ds, hds, hend⟩
              · exact Or.inl h'
              · exact Or.inr ⟨d', List.mem_cons_of_mem _ hd', ds, hds, hend⟩
            · intro m' hm'
              obtain ⟨d', hd', ds, hds, hend⟩ := hm'
              rcases List.mem_cons.mp hd' with rfl | hmem
              · rw [hd] at hds; injection hds with hds
                rw [← hds, hae] at hend; cases hend
              · exact hub m' ⟨d', hmem, ds, hds, hend⟩
        | some ae =>
          rw [hae] at h
          cases hacc : acc with
          | none =>
            rw [hacc] at h
            dsimp only at h
            obtain ⟨h1, h2⟩ := ih (some ae) e h
            refine ⟨fun he => absurd (h1 he).1 (by simp), fun m hm => ?_⟩
            obtain ⟨hor, hup, hub⟩ := h2 m hm
            have haem : ae ≤ m := hup ae rfl
            refine ⟨?_, ?_, ?_⟩
            · rcases hor with h' | ⟨d', hd', ds, hds, hend⟩
              · injection h' with h'
                exact Or.inr ⟨d, List.mem_cons_self d rest, dep, hd, h' ▸ hae⟩
              · exact Or.inr ⟨d', List.mem_cons_of_mem _ hd', ds, hds, hend⟩
            · intro a ha
              cases ha
            · intro m' hm'
              obtain ⟨d', hd', ds, hds, hend⟩ := hm'
              rcases List.mem_cons.mp hd' with rfl | hmem
              · rw [hd] at hds; injection hds with hds
                rw [← hds, hae] at hend
                injection hend with hend
                omega
              · exact hub m' ⟨d', hmem, ds, hds, hend⟩
          | some cur =>
            rw [hacc] at h
            dsimp only at h
            have hsplit : (if ae > cur then some ae else some cur)
                = some (if ae > cur then ae else cur) := by
              split <;> rfl
            rw [hsplit] at h
            set v : Int := if ae > cur then ae else cur with hv
            have hcv : cur ≤ v := by
              rw [hv]; split <;> omega
            have haev : ae ≤ v := by
              rw [hv]; split <;> omega
            have hvor : v = ae ∨ v = cur := by
              rw [hv]; split
              · exact Or.inl rfl
              · exact Or.inr rfl
            obtain ⟨h1, h2⟩ := ih (some v) e h
            refine ⟨fun he => absurd (h1 he).1 (by simp), fun m hm => ?_⟩
            obtain ⟨hor, hup, hub⟩ := h2 m hm
            have hvm : v ≤ m := hup v rfl
            refine ⟨?_, ?_, ?_⟩
            · rcases hor with h' | ⟨d', hd', ds, hds, hend⟩
              · injection h' with h'
                rcases hvor with hv1 | hv2
                · have : ae = m := by omega
                  exact Or.inr ⟨d, List.mem_cons_self d rest, dep, hd, this ▸ hae⟩
                · have : cur = m := by omega
                  exact Or.inl (by rw [this])
              · exact Or.inr ⟨d', List.mem_cons_of_mem _ hd', ds, hds, hend⟩
            · intro a ha
              injection ha with ha
              omega
            · intro m' hm'
              obtain ⟨d', hd', ds, hds, hend⟩ := hm'
              rcases List.mem_cons.mp hd' with rfl | hmem
              · rw [hd] at hds; injection hds with hds
                rw [← hds, hae] at hend
                injection hend with hend
                omega
              · exact hub m' ⟨d', hmem, ds, hds, hend⟩
      · rw [if_neg hc] at h
        cases h

theorem depsMet_latest {sch : Scheduler} {deps : List String} {e : Option Int}
    (h : depsMet sch deps none = some e) : LatestDepEnd sch deps e := by
  obtain ⟨h1, h2⟩ := depsMet_spec sch deps none e h
  constructor
  · intro he
    exact (h1 he).2
  · intro m hm
    obtain ⟨hor, _, hub⟩ := h2 m hm
    rcases hor with hacc | hdep
    · cases hacc
    · exact ⟨hdep, hub⟩

/-- C2: for every step in the registry (with the duplicate-free keys a
    Python dict guarantees), update_ready_status flips its status from
    Pending to Ready exactly when every dependency id maps to a
    registered Completed step; on a flip it records the latest actual
    completion among the dependencies as earliest_possible_start_time,
    keeping the prior value when no dependency has an actual end; it
    never changes a step that is not Pending, and a merely scheduled
    (not actually Completed) dependency never lets a step flip. -/
theorem update_ready_status_pending_to_ready (sch : Scheduler)
    (hnd : (sch.schedule.map Prod.fst).Nodup)
    (id : String) (s : Step) (hid : sch.get_step id = some s) :
    ∃ s', sch.update_ready_status.get_step id = some s' ∧
      (s.status ≠ StepStatus.pending → s' = s) ∧
      (s.status = StepStatus.pending →
        ((s'.status = StepStatus.ready) ↔ DepsCompleted sch s.dependencies) ∧
        (¬ DepsCompleted sch s.dependencies → s' = s) ∧
        (DepsCompleted sch s.dependencies →
          ∃ e, LatestDepEnd sch s.dependencies e ∧
            s' = { s with status := StepStatus.ready
                          earliest_possible_start_time :=
                            e.orElse (fun _ => s.earliest_possible_start_time) })) := by
  have hsome : (sch.get_step id).isSome := by rw [hid]; rfl
  have hmemk : id ∈ sch.schedule.map Prod.fst :=
    lookup_isSome_iff_mem_keys.mp hsome
  obtain ⟨l₁, l₂, hdecomp⟩ := List.append_of_mem hmemk
  have hnd' := hdecomp ▸ hnd
  have hid1 : id ∉ l₁ := by
    intro hmem
    exact (List.disjoint_of_nodup_append hnd') hmem (List.mem_cons_self _ _)
  have hid2 : id ∉ l₂ :=
    (List.nodup_cons.mp (List.nodup_append.mp hnd').2.1).1
  have hfold : sch.update_ready_status
      = l₂.foldl updateReadyOne (updateReadyOne (l₁.foldl updateReadyOne sch) id) := by
    rw [Scheduler.update_ready_status, hdecomp, List.foldl_append, List.foldl_cons]
  set mid := l₁.foldl updateReadyOne sch with hmid
  have hmidupd : SchedUpd sch mid := foldl_updateReady_upd l₁ (schedUpd_refl sch)
  have hmid_id : mid.get_step id = some s := by
    rw [hmid, foldl_updateReady_get_ne l₁ hid1, hid]
  by_cases hp : s.status = StepStatus.pending
  · rw [hfold, updateReadyOne, hmid_id]
    dsimp only
    rw [if_pos hp, depsMet_stable hmidupd]
    cases hdm : depsMet sch s.dependencies none with
    | none =>
      have hnc : ¬ DepsCompleted sch s.dependencies := by
        rw [← depsMet_isSome_iff sch s.dependencies none, hdm]
        simp
      dsimp only
      refine ⟨s, ?_, fun _ => rfl, fun _ => ⟨?_, fun _ => rfl, fun hcd => absurd hcd hnc⟩⟩
      · rw [foldl_updateReady_get_ne l₂ hid2]
        exact hmid_id
      · simp [hp, hnc]
    | some eds =>
      have hcd : DepsCompleted sch s.dependencies := by
        rw [← depsMet_isSome_iff sch s.dependencies none, hdm]
        rfl
      dsimp only
      refine ⟨_, ?_, fun hne => absurd hp hne,
        fun _ => ⟨?_, fun hnc => absurd hcd hnc, fun _ => ⟨eds, depsMet_latest hdm, rfl⟩⟩⟩
      · rw [foldl_updateReady_get_ne l₂ hid2, setStep_get_self, hmid_id]
        rfl
      · simp [hcd]
  · refine ⟨s, ?_, fun _ => rfl, fun hpend => absurd hpend hp⟩
    rw [hfold, foldl_updateReady_get_ne l₂ hid2, updateReadyOne, hmid_id]
    dsimp only
    rw [if_neg hp]
    exact hmid_id

/-! Lemmas about the scheduling worklist loop. -/

theorem placeUpd_refl (s : Step) : PlaceUpd s s := Or.inl rfl

theorem PlaceUpd.status {s s' : Step} (h : PlaceUpd s s') :
    s'.status = s.status ∧ s'.id = s.id ∧ s'.duration = s.duration ∧
    s'.actual_end_time = s.actual_end_time ∧ s'.elapsed_time = s.elapsed_time := by
  rcases h with rfl | ⟨hp, a, b, rfl⟩ <;> exact ⟨rfl, rfl, rfl, rfl, rfl⟩

theorem placeUpd_not_pending {s s' : Step} (h : PlaceUpd s s')
    (hp : s.status ≠ StepStatus.pending) : s' = s := by
  rcases h with rfl | ⟨hpend, _⟩
  · rfl
  · exact absurd hpend hp

theorem placeUpd_trans {s s' s'' : Step} (h1 : PlaceUpd s s') (h2 : PlaceUpd s' s'') :
    PlaceUpd s s'' := by
  rcases h1 with rfl | ⟨hp, a, b, rfl⟩
  · exact h2
  · rcases h2 with rfl | ⟨hp', a', b', rfl⟩
    · exact Or.inr ⟨hp, a, b, rfl⟩
    · exact Or.inr ⟨hp, a', b', rfl⟩

theorem PlaceUpd.inv {s s' : Step} (h : PlaceUpd s s') (hinv : StepInv s) : StepInv s' := by
  rcases h with rfl | ⟨hp, a, b, rfl⟩
  · exact hinv
  · intro t ht
    injection ht with ht
    subst ht
    rfl

theorem placeStep_placeUpd (step : Step) (hp : step.status = StepStatus.pending)
    (ss eps : Int) : PlaceUpd step (placeStep step ss eps) :=
  Or.inr ⟨hp, ss, eps, rfl⟩

theorem schedPlace_refl (sch : Scheduler) : SchedPlace sch sch :=
  ⟨rfl, fun _ s h => ⟨s, h, placeUpd_refl s⟩⟩

theorem schedPlace_place {sch0 sch : Scheduler} (h : SchedPlace sch0 sch)
    {k : String} {step : Step} (hk : sch.get_step k = some step)
    (hp : step.status = StepStatus.pending) (ss eps : Int) :
    SchedPlace sch0 (sch.setStep k (placeStep step ss eps)) := by
  refine ⟨by rw [setStep_keys]; exact h.1, fun k' s hs => ?_⟩
  obtain ⟨s', hs', hupd⟩ := h.2 k' s hs
  by_cases hkk : k' = k
  · subst hkk
    rw [setStep_get_self, hk]
    rw [hk] at hs'
    injection hs' with hs'
    subst hs'
    exact ⟨_, rfl, placeUpd_trans hupd (placeStep_placeUpd _ hp ss eps)⟩
  · rw [setStep_get_ne _ _ hkk]
    exact ⟨s', hs', hupd⟩

theorem schedLoop_place (base : Int) {sch0 : Scheduler} :
    ∀ (fuel : Nat) (work processed : List String) (sch : Scheduler),
      SchedPlace sch0 sch →
      SchedPlace sch0 (schedLoop fuel sch base processed work).1 := by
  intro fuel
  induction fuel with
  | zero =>
    intro work processed sch h
    cases work <;> exact h
  | succ fuel ih =>
    intro work processed sch h
    cases work with
    | nil => exact h
    | cons step_id rest =>
      rw [schedLoop]
      cases hg : sch.get_step step_id with
      | none => exact ih rest processed sch h
      | some step =>
        dsimp only
        by_cases hskip : step.id ∈ processed ∨ step.status ≠ StepStatus.pending
        · rw [if_pos hskip]
          exact ih rest processed sch h
        · rw [if_neg hskip]
          have hp : step.status = StepStatus.pending := by
            by_contra hnp
            exact hskip (Or.inr hnp)
          by_cases hdeps : step.dependencies = []
          · rw [if_pos hdeps]
            exact ih rest _ _ (schedPlace_place h hg hp _ _)
          · rw [if_neg hdeps]
            cases hres : sch.resolve_dependencies step with
            | some floor => exact ih rest _ _ (schedPlace_place h hg hp _ _)
            | none => exact ih (rest ++ [step_id]) processed sch h

/-- the entry a step has after the whole initial scheduling pass: a
    possible placement followed by a possible readiness flip. -/
theorem calc_entry (sch : Scheduler) (t : Option Int) (now : Int) {k : String} {s : Step}
    (hk : sch.get_step k = some s) :
    ∃ s₁ s₂, (sch.calculate_initial_schedule t now).get_step k = some s₂ ∧
      PlaceUpd s s₁ ∧ StepUpd s₁ s₂ := by
  rw [Scheduler.calculate_initial_schedule]
  have hplace := schedLoop_place (t.getD now)
      ((sch.schedule.map Prod.fst).length * 2) (sch.schedule.map Prod.fst) [] sch
      (schedPlace_refl sch)
  obtain ⟨s₁, hs₁, hp⟩ := hplace.2 k s hk
  obtain ⟨s₂, hs₂, hu⟩ := (update_ready_status_upd _).2 k s₁ hs₁
  exact ⟨s₁, s₂, hs₂, hp, hu⟩

theorem wk_setStep {sch : Scheduler} (hwk : ∀ k st, sch.get_step k = some st → st.id = k)
    {k : String} {v : Step} (hv : v.id = k) :
    ∀ k' st, (sch.setStep k v).get_step k' = some st → st.id = k' := by
  intro k' st hst
  by_cases hkk : k' = k
  · subst hkk
    rw [setStep_get_self] at hst
    cases hg : sch.get_step k' with
    | none => rw [hg] at hst; cases hst
    | some s0 =>
      rw [hg] at hst
      injection hst with hst
      rw [← hst]
      exact hv
  · rw [setStep_get_ne _ _ hkk] at hst
    exact hwk k' st hst

/-- once a step's object id is in the processed set, the rest of the
    scheduling loop never touches its registry entry. -/
theorem schedLoop_frozen (base : Int) (id : String) :
    ∀ (fuel : Nat) (work processed : List String) (sch : Scheduler),
      (∀ k st, sch.get_step k = some st → st.id = k) →
      id ∈ processed →
      (schedLoop fuel sch base processed work).1.get_step id = sch.get_step id := by
  intro fuel
  induction fuel with
  | zero => intro work processed sch _ _; cases work <;> rfl
  | succ fuel ih =>
    intro work processed sch hwk hmem
    cases work with
    | nil => rfl
    | cons k rest =>
      rw [schedLoop]
      cases hg : sch.get_step k with
      | none => exact ih rest processed sch hwk hmem
      | some step =>
        dsimp only
        by_cases hskip : step.id ∈ processed ∨ step.status ≠ StepStatus.pending
        · rw [if_pos hskip]
          exact ih rest processed sch hwk hmem
        · rw [if_neg hskip]
          have hkid : step.id = k := hwk k step hg
          have hne : id ≠ k := by
            intro hidk
            exact hskip (Or.inl (by rw [hkid, ← hidk]; exact hmem))
          by_cases hdeps : step.dependencies = []
          · rw [if_pos hdeps]
            have hwk' : ∀ k' st,
                (sch.setStep k (placeStep step (step.scheduled_start_time.getD base)
                  ((sch.resolve_dependencies step).getD base))).get_step k' = some st →
                  st.id = k' :=
              wk_setStep hwk hkid
            exact (ih rest _ _ hwk' (List.mem_append_left _ hmem)).trans
              (setStep_get_ne _ _ hne)
          · rw [if_neg hdeps]
            cases hres : sch.resolve_dependencies step with
            | some floor =>
              dsimp only
              have hwk' : ∀ k' st,
                  (sch.setStep k (placeStep step (step.scheduled_start_time.getD floor)
                    floor)).get_step k' = some st → st.id = k' :=
                wk_setStep hwk hkid
              exact (ih rest _ _ hwk' (List.mem_append_left _ hmem)).trans
                (setStep_get_ne _ _ hne)
            | none => exact ih (rest ++ [k]) processed sch hwk hmem

/-- a pending dependency-free unscheduled step whose key has not yet
    been consumed from the worklist is placed at the base time by the
    loop, provided the remaining fuel covers its position. -/
theorem schedLoop_reaches (base : Int) (id : String) (s0 : Step) :
    ∀ (l₁ : List String) (fuel : Nat) (l₂ processed : List String) (sch : Scheduler),
      (∀ k st, sch.get_step k = some st → st.id = k) →
      id ∉ l₁ → id ∉ l₂ → id ∉ processed →
      sch.get_step id = some s0 →
      s0.status = StepStatus.pending →
      s0.dependencies = [] →
      s0.scheduled_start_time = none →
      l₁.length + 1 ≤ fuel →
      (schedLoop fuel sch base processed (l₁ ++ id :: l₂)).1.get_step id
        = some (placeStep s0 base base) := by
  intro l₁
  induction l₁ with
  | nil =>
    intro fuel l₂ processed sch hwk _ hl₂ hproc hid hp hdeps hss hfuel
    cases fuel with
    | zero => omega
    | succ f =>
      rw [List.nil_append, schedLoop, hid]
      dsimp only
      have hsid : s0.id = id := hwk id s0 hid
      have hskip : ¬ (s0.id ∈ processed ∨ s0.status ≠ StepStatus.pending) := by
        intro hor
        rcases hor with hmem | hnp
        · exact hproc (hsid ▸ hmem)
        · exact hnp hp
      rw [if_neg hskip, if_pos hdeps]
      have hres : sch.resolve_dependencies s0 = none := by
        rw [Scheduler.resolve_dependencies, hdeps]
        rfl
      rw [hss, hres]
      show (schedLoop f (sch.setStep id (placeStep s0 base base)) base
          (processed ++ [s0.id]) l₂).1.get_step id = some (placeStep s0 base base)
      have hwk' : ∀ k' st,
          (sch.setStep id (placeStep s0 base base)).get_step k' = some st → st.id = k' :=
        wk_setStep hwk hsid
      refine (schedLoop_frozen base id f l₂ _ _ hwk' ?_).trans ?_
      · exact List.mem_append_right _ (hsid ▸ List.mem_singleton.mpr rfl)
      · rw [setStep_get_self, hid]
        rfl
  | cons k l₁' ih =>
    intro fuel l₂ processed sch hwk hl₁ hl₂ hproc hid hp hdeps hss hfuel
    have hkne : id ≠ k := fun hik => hl₁ (hik ▸ List.mem_cons_self k l₁')
    have hl₁' : id ∉ l₁' := fun hm => hl₁ (List.mem_cons_of_mem _ hm)
    cases fuel with
    | zero => simp at hfuel
    | succ f =>
      have hf : l₁'.length + 1 ≤ f := by
        simp at hfuel
        omega
      rw [List.cons_append, schedLoop]
      cases hg : sch.get_step k with
      | none => exact ih f l₂ processed sch hwk hl₁' hl₂ hproc hid hp hdeps hss hf
      | some step =>
        dsimp only
        have hkid : step.id = k := hwk k step hg
        by_cases hskip : step.id ∈ processed ∨ step.status ≠ StepStatus.pending
        · rw [if_pos hskip]
          exact ih f l₂ processed sch hwk hl₁' hl₂ hproc hid hp hdeps hss hf
        · rw [if_neg hskip]
          have hproc' : id ∉ processed ++ [step.id] := by
            intro hm
            rcases List.mem_append.mp hm with hm | hm
            · exact hproc hm
            · rw [List.mem_singleton] at hm
              exact hkne (hm.trans hkid)
          by_cases hdeps' : step.dependencies = []
          · rw [if_pos hdeps']
            have hwk' : ∀ k' st,
                (sch.setStep k (placeStep step (step.scheduled_start_time.getD base)
                  ((sch.resolve_dependencies step).getD base))).get_step k' = some st →
                  st.id = k' :=
              wk_setStep hwk hkid
            exact ih f l₂ _ _ hwk' hl₁' hl₂ hproc'
              ((setStep_get_ne _ _ hkne).trans hid) hp hdeps hss hf
          · rw [if_neg hdeps']
            cases hres : sch.resolve_dependencies step with
            | some floor =>
              dsimp only
              have hwk' : ∀ k' st,
                  (sch.setStep k (placeStep step (step.scheduled_start_time.getD floor)
                    floor)).get_step k' = some st → st.id = k' :=
                wk_setStep hwk hkid
              exact ih f l₂ _ _ hwk' hl₁' hl₂ hproc'
                ((setStep_get_ne _ _ hkne).trans hid) hp hdeps hss hf
            | none =>
              have hl₂' : id ∉ l₂ ++ [k] := by
                intro hm
                rcases List.mem_append.mp hm with hm | hm
                · exact hl₂ hm
                · exact hkne (List.mem_singleton.mp hm)
              rw [List.append_assoc, List.cons_append]
              exact ih f (l₂ ++ [k]) processed sch hwk hl₁' hl₂' hproc hid hp hdeps hss hf

/-- C3 amended: in a well-keyed duplicate-free registry, the initial
    scheduling pass with base time T gives every Pending dependency-free
    step with no preset scheduled start exactly scheduled_start = T and
    scheduled_end = T + duration; a preset start is preserved instead. -/
theorem calc_initial_no_deps_base_time (sch : Scheduler) (T now : Int)
    (hnd : (sch.schedule.map Prod.fst).Nodup)
    (hwk : WellKeyedL sch)
    (id : String) (s0 : Step) (hid : sch.get_step id = some s0)
    (hp : s0.status = StepStatus.pending)
    (hdeps : s0.dependencies = [])
    (hss : s0.scheduled_start_time = none) :
    ∃ s', (sch.calculate_initial_schedule (some T) now).get_step id = some s' ∧
      s'.scheduled_start_time = some T ∧
      s'.scheduled_end_time = some (T + s0.duration) := by
  have hwk' : ∀ k st, sch.get_step k = some st → st.id = k := fun k st h =>
    hwk (k, st) (get_step_mem h)
  have hsome : (sch.get_step id).isSome := by rw [hid]; rfl
  have hmemk : id ∈ sch.schedule.map Prod.fst := lookup_isSome_iff_mem_keys.mp hsome
  obtain ⟨l₁, l₂, hdecomp⟩ := List.append_of_mem hmemk
  have hnd' := hdecomp ▸ hnd
  have hid1 : id ∉ l₁ := fun hm =>
    (List.disjoint_of_nodup_append hnd') hm (List.mem_cons_self _ _)
  have hid2 : id ∉ l₂ := (List.nodup_cons.mp (List.nodup_append.mp hnd').2.1).1
  have hfuel : l₁.length + 1 ≤ (l₁ ++ id :: l₂).length * 2 := by
    simp
    omega
  have hloop := schedLoop_reaches T id s0 l₁ ((l₁ ++ id :: l₂).length * 2) l₂ [] sch
      hwk' hid1 hid2 (by simp) hid hp hdeps hss hfuel
  have hmain : (sch.calculate_initial_schedule (some T) now)
      = (schedLoop ((l₁ ++ id :: l₂).length * 2) sch T [] (l₁ ++ id :: l₂)).1.update_ready_status := by
    rw [Scheduler.calculate_initial_schedule, hdecomp]
    rfl
  obtain ⟨s₂, hs₂, hupd⟩ := (update_ready_status_upd _).2 id _ hloop
  refine ⟨s₂, by rw [hmain]; exact hs₂, ?_, ?_⟩
  · rw [hupd.fields.2.2.1]
    rfl
  · rw [hupd.fields.2.2.2.1]
    rfl

/-- C3 counterexample: a dependency-free Pending step constructed with a
    preset scheduled start of 5 keeps it through an initial pass with
    base time 0, so its scheduled_start is not the base time. -/
theorem calc_initial_preset_not_base :
    stepC3.dependencies = [] ∧
    ((SchedC3.calculate_initial_schedule (some 0) 0).get_step "c3x").map
        Step.scheduled_start_time = some (some 5) ∧
    ((SchedC3.calculate_initial_schedule (some 0) 0).get_step "c3x").map
        Step.scheduled_end_time = some (some 15) ∧
    some (5 : Int) ≠ some (0 : Int) := by
  exact ⟨rfl, by decide, by decide, by decide⟩

/-- C3 witness: a fresh dependency-free Pending step is scheduled at the
    base time 7 with end 17. -/
theorem calc_initial_no_deps_base_time_witness :
    ∃ s', (SchedC3f.calculate_initial_schedule (some 7) 0).get_step "c3f" = some s' ∧
      s'.scheduled_start_time = some 7 ∧
      s'.scheduled_end_time = some (7 + stepC3f.duration) :=
  calc_initial_no_deps_base_time SchedC3f 7 0 (by decide)
    (by unfold WellKeyedL; decide) "c3f" stepC3f rfl rfl rfl rfl

/-! Lemmas about terminal statuses. -/

theorem terminalStatus_not_pending {st : StepStatus} (h : TerminalStatus st) :
    st ≠ StepStatus.pending := by
  rcases h with h | h <;> rw [h] <;> simp

theorem stepUpd_terminal {s s' : Step} (h : StepUpd s s') (ht : TerminalStatus s.status) :
    s' = s :=
  stepUpd_not_pending h (terminalStatus_not_pending ht)

theorem placeUpd_terminal {s s' : Step} (h : PlaceUpd s s') (ht : TerminalStatus s.status) :
    s' = s :=
  placeUpd_not_pending h (terminalStatus_not_pending ht)

theorem terminal_step_ops {s : Step} (h : TerminalStatus s.status) (t : Option Int)
    (now : Int) :
    s.start t now = s ∧ s.pause now = Except.ok s ∧ s.complete t now = Except.ok s := by
  have h1 : ¬(s.status = StepStatus.ready ∨ s.status = StepStatus.paused) := by
    rcases h with h | h <;> rw [h] <;> simp
  have h2 : s.status ≠ StepStatus.running := by
    rcases h with h | h <;> rw [h] <;> simp
  have h3 : ¬(s.status = StepStatus.running ∨ s.status = StepStatus.paused) := by
    rcases h with h | h <;> rw [h] <;> simp
  refine ⟨?_, ?_, ?_⟩
  · rw [Step.start, if_neg h1]
  · rw [Step.pause]
    by_cases hty : s.step_type = StepType.fixedDuration ∨ s.step_type = StepType.fixedStart
        ∨ s.step_type = StepType.automatedTask
    · rw [if_pos hty]
    · rw [if_neg hty, if_neg h2]
  · rw [Step.complete, if_neg h3]

/-- entry preservation through the readiness pass for a terminal step. -/
theorem update_ready_terminal {sch : Scheduler} {k : String} {s : Step}
    (hk : sch.get_step k = some s) (hterm : TerminalStatus s.status) :
    ∃ s', sch.update_ready_status.get_step k = some s' ∧ s' = s := by
  obtain ⟨s', hs', hupd⟩ := (update_ready_status_upd sch).2 k s hk
  exact ⟨s', hs', stepUpd_terminal hupd hterm⟩

/-- C7 corrected: once a step is Completed or Skipped, none of start,
    pause, complete, the readiness pass, the initial scheduling pass, or
    the three event handlers moves it out of that status (the step-level
    calls even leave the step object unchanged and raise nothing);
    update_status, however, is an unconditional overwrite that can move
    even a terminal step to any status. -/
theorem terminal_statuses_frozen (sch : Scheduler) (k j : String) (s : Step)
    (t : Option Int) (now : Int)
    (hk : sch.get_step k = some s) (hterm : TerminalStatus s.status) :
    s.start t now = s ∧
    s.pause now = Except.ok s ∧
    s.complete t now = Except.ok s ∧
    (∃ s', sch.update_ready_status.get_step k = some s' ∧ s' = s) ∧
    (∃ s', (sch.calculate_initial_schedule t now).get_step k = some s' ∧ s' = s) ∧
    (∃ s', (sch.handle_step_start j t now).get_step k = some s' ∧ s' = s) ∧
    (∃ s', (schedOutcome (sch.handle_step_pause j now)).get_step k = some s' ∧ s' = s) ∧
    (∃ s', (schedOutcome (sch.handle_step_complete j t now)).get_step k = some s' ∧ s' = s) := by
  obtain ⟨hst, hpa, hco⟩ := terminal_step_ops hterm t now
  refine ⟨hst, hpa, hco, update_ready_terminal hk hterm, ?_, ?_, ?_, ?_⟩
  · obtain ⟨s₁, s₂, hs₂, hp, hu⟩ := calc_entry sch t now hk
    rw [placeUpd_terminal hp hterm] at hu
    exact ⟨s₂, hs₂, stepUpd_terminal hu hterm⟩
  · rw [Scheduler.handle_step_start]
    cases hj : sch.get_step j with
    | none => exact ⟨s, hk, rfl⟩
    | some sj =>
      dsimp only
      by_cases hkj : k = j
      · subst hkj
        rw [hk] at hj
        injection hj with hj
        subst hj
        have hmid : (sch.setStep k (s.start (some (t.getD now)) now)).get_step k
            = some s := by
          rw [(terminal_step_ops hterm (some (t.getD now)) now).1, setStep_get_self, hk]
          rfl
        exact update_ready_terminal hmid hterm
      · have hmid : (sch.setStep j (sj.start (some (t.getD now)) now)).get_step k
            = some s := (setStep_get_ne _ _ hkj).trans hk
        exact update_ready_terminal hmid hterm
  · rw [Scheduler.handle_step_pause]
    cases hj : sch.get_step j with
    | none => exact ⟨s, hk, rfl⟩
    | some sj =>
      dsimp only
      by_cases hkj : k = j
      · subst hkj
        rw [hk] at hj
        injection hj with hj
        subst hj
        rw [(terminal_step_ops hterm t now).2.1]
        dsimp only [schedOutcome]
        refine ⟨s, ?_, rfl⟩
        rw [setStep_get_self, hk]
        rfl
      · cases hres : sj.pause now with
        | ok s' =>
          dsimp only [schedOutcome]
          exact ⟨s, (setStep_get_ne _ _ hkj).trans hk, rfl⟩
        | error s' =>
          dsimp only [schedOutcome]
          exact ⟨s, (setStep_get_ne _ _ hkj).trans hk, rfl⟩
  · rw [Scheduler.handle_step_complete]
    cases hj : sch.get_step j with
    | none => exact ⟨s, hk, rfl⟩
    | some sj =>
      dsimp only
      by_cases hkj : k = j
      · subst hkj
        rw [hk] at hj
        injection hj with hj
        subst hj
        rw [(terminal_step_ops hterm (some (t.getD now)) now).2.2]
        dsimp only [schedOutcome]
        have hmid : (sch.setStep k s).get_step k = some s := by
          rw [setStep_get_self, hk]
          rfl
        exact update_ready_terminal hmid hterm
      · cases hres : sj.complete (some (t.getD now)) now with
        | ok s' =>
          dsimp only [schedOutcome]
          have hmid : (sch.setStep j s').get_step k = some s :=
            (setStep_get_ne _ _ hkj).trans hk
          exact update_ready_terminal hmid hterm
        | error s' =>
          dsimp only [schedOutcome]
          exact ⟨s, (setStep_get_ne _ _ hkj).trans hk, rfl⟩

/-- C7 counterexample: update_status is listed among the core's
    operations, and it moves a Completed step straight back to Pending,
    so Completed is not terminal under every core operation. -/
theorem update_status_unfreezes_completed :
    stepC7.status = StepStatus.completed ∧
    (stepC7.update_status StepStatus.pending).status = StepStatus.pending ∧
    StepStatus.pending ≠ StepStatus.completed := by
  exact ⟨rfl, rfl, by decide⟩

/-- C7 witness: the frozen-terminal-status theorem applied to a concrete
    registry holding one Completed step. -/
theorem terminal_statuses_frozen_witness :
    stepC7.start (some 3) 3 = stepC7 ∧
    stepC7.pause 3 = Except.ok stepC7 ∧
    stepC7.complete (some 3) 3 = Except.ok stepC7 ∧
    (∃ s', SchedC7.update_ready_status.get_step "c7s" = some s' ∧ s' = stepC7) ∧
    (∃ s', (SchedC7.calculate_initial_schedule (some 3) 3).get_step "c7s" = some s'
      ∧ s' = stepC7) ∧
    (∃ s', (SchedC7.handle_step_start "c7s" (some 3) 3).get_step "c7s" = some s'
      ∧ s' = stepC7) ∧
    (∃ s', (schedOutcome (SchedC7.handle_step_pause "c7s" 3)).get_step "c7s" = some s'
      ∧ s' = stepC7) ∧
    (∃ s', (schedOutcome (SchedC7.handle_step_complete "c7s" (some 3) 3)).get_step "c7s"
      = some s' ∧ s' = stepC7) :=
  terminal_statuses_frozen SchedC7 "c7s" "c7s" stepC7 (some 3) 3 rfl (Or.inl rfl)

/-! The scheduled-window invariant through every core operation. -/

theorem stepInit_inv (id name : String) (dur : Int) (ty : StepType)
    (deps : List String) (sst : Option Int) (notes : Option String)
    (md : List (String × String)) (res : Option String) :
    StepInv (Step.init id name dur ty deps sst notes md res) := by
  intro t ht
  cases sst with
  | none => cases ht
  | some v =>
    injection ht with ht
    subst ht
    rfl

theorem isInitStep_inv {s : Step} (h : IsInitStep s) : StepInv s := by
  obtain ⟨id, name, dur, ty, deps, sst, notes, md, res, rfl⟩ := h
  exact stepInit_inv id name dur ty deps sst notes md res

theorem stepInv_of_fields {s s' : Step}
    (h1 : s'.scheduled_start_time = s.scheduled_start_time)
    (h2 : s'.scheduled_end_time = s.scheduled_end_time)
    (h3 : s'.duration = s.duration) (hinv : StepInv s) : StepInv s' := by
  intro t ht
  rw [h2, h3]
  exact hinv t (h1 ▸ ht)

theorem start_fields (s : Step) (t : Option Int) (now : Int) :
    (s.start t now).scheduled_start_time = s.scheduled_start_time ∧
    (s.start t now).scheduled_end_time = s.scheduled_end_time ∧
    (s.start t now).duration = s.duration := by
  rw [Step.start]
  split <;> exact ⟨rfl, rfl, rfl⟩

theorem pause_fields (s : Step) (now : Int) :
    (stepOutcome (s.pause now)).scheduled_start_time = s.scheduled_start_time ∧
    (stepOutcome (s.pause now)).scheduled_end_time = s.scheduled_end_time ∧
    (stepOutcome (s.pause now)).duration = s.duration := by
  rw [Step.pause]
  split
  · exact ⟨rfl, rfl, rfl⟩
  · split
    · cases s.actual_start_time with
      | some t0 => exact ⟨rfl, rfl, rfl⟩
      | none => exact ⟨rfl, rfl, rfl⟩
    · exact ⟨rfl, rfl, rfl⟩

theorem complete_fields (s : Step) (t : Option Int) (now : Int) :
    (stepOutcome (s.complete t now)).scheduled_start_time = s.scheduled_start_time ∧
    (stepOutcome (s.complete t now)).scheduled_end_time = s.scheduled_end_time ∧
    (stepOutcome (s.complete t now)).duration = s.duration := by
  rw [Step.complete]
  split
  · split
    · cases s.actual_start_time with
      | some t0 => exact ⟨rfl, rfl, rfl⟩
      | none => exact ⟨rfl, rfl, rfl⟩
    · exact ⟨rfl, rfl, rfl⟩
  · exact ⟨rfl, rfl, rfl⟩

theorem placeStep_inv (step : Step) (ss eps : Int) : StepInv (placeStep step ss eps) := by
  intro t ht
  injection ht with ht
  subst ht
  rfl

theorem allInv_get {sch : Scheduler} (h : AllInv sch) {k : String} {s : Step}
    (hk : sch.get_step k = some s) : StepInv s :=
  h (k, s) (get_step_mem hk)

theorem allInv_setStep {sch : Scheduler} (h : AllInv sch) (k : String) {v : Step}
    (hv : StepInv v) : AllInv (sch.setStep k v) := by
  intro p hp
  rcases mem_update hp with rfl | hp'
  · exact hv
  · exact h p hp'

theorem allInv_updateReadyOne {sch : Scheduler} (h : AllInv sch) (k : String) :
    AllInv (updateReadyOne sch k) := by
  rw [updateReadyOne]
  cases hk : sch.get_step k with
  | none => exact h
  | some step =>
    dsimp only
    by_cases hp : step.status = StepStatus.pending
    · rw [if_pos hp]
      cases hdm : depsMet sch step.dependencies none with
      | none => exact h
      | some eds =>
        refine allInv_setStep h k (stepInv_of_fields ?_ ?_ ?_ (allInv_get h hk))
        · rfl
        · rfl
        · rfl
    · rw [if_neg hp]
      exact h

theorem allInv_update_ready (sch : Scheduler) (h : AllInv sch) :
    AllInv sch.update_ready_status := by
  rw [Scheduler.update_ready_status]
  generalize sch.schedule.map Prod.fst = ks
  induction ks generalizing sch with
  | nil => exact h
  | cons k rest ih => exact ih _ (allInv_updateReadyOne h k)

theorem allInv_schedLoop (base : Int) :
    ∀ (fuel : Nat) (work processed : List String) (sch : Scheduler), AllInv sch →
      AllInv (schedLoop fuel sch base processed work).1 := by
  intro fuel
  induction fuel with
  | zero => intro work processed sch h; cases work <;> exact h
  | succ fuel ih =>
    intro work processed sch h
    cases work with
    | nil => exact h
    | cons step_id rest =>
      rw [schedLoop]
      cases hg : sch.get_step step_id with
      | none => exact ih rest processed sch h
      | some step =>
        dsimp only
        by_cases hskip : step.id ∈ processed ∨ step.status ≠ StepStatus.pending
        · rw [if_pos hskip]
          exact ih rest processed sch h
        · rw [if_neg hskip]
          by_cases hdeps : step.dependencies = []
          · rw [if_pos hdeps]
            exact ih rest _ _ (allInv_setStep h step_id (placeStep_inv _ _ _))
          · rw [if_neg hdeps]
            cases hres : sch.resolve_dependencies step with
            | some floor => exact ih rest _ _ (allInv_setStep h step_id (placeStep_inv _ _ _))
            | none => exact ih (rest ++ [step_id]) processed sch h

theorem allInv_calc (sch : Scheduler) (t : Option Int) (now : Int) (h : AllInv sch) :
    AllInv (sch.calculate_initial_schedule t now) := by
  rw [Scheduler.calculate_initial_schedule]
  exact allInv_update_ready _ (allInv_schedLoop _ _ _ _ _ h)

theorem mem_foldl_add {p : String × Step} :
    ∀ (l acc : List (String × Step)),
      p ∈ l.foldl (fun acc q => if (acc.lookup q.1).isSome then acc else acc ++ [q]) acc →
      p ∈ acc ∨ p ∈ l := by
  intro l
  induction l with
  | nil => intro acc h; exact Or.inl h
  | cons q rest ih =>
    intro acc h
    rw [List.foldl_cons] at h
    by_cases hq : (acc.lookup q.1).isSome
    · rw [if_pos hq] at h
      rcases ih acc h with h' | h'
      · exact Or.inl h'
      · exact Or.inr (List.mem_cons_of_mem _ h')
    · rw [if_neg hq] at h
      rcases ih (acc ++ [q]) h with h' | h'
      · rcases List.mem_append.mp h' with h'' | h''
        · exact Or.inl h''
        · exact Or.inr (List.mem_singleton.mp h'' ▸ List.mem_cons_self q rest)
      · exact Or.inr (List.mem_cons_of_mem _ h')

theorem allInv_add_experiment {sch : Scheduler} (h : AllInv sch) {e : Experiment}
    (he : ∀ p ∈ e.steps, StepInv p.2) : AllInv (sch.add_experiment e) := by
  rw [Scheduler.add_experiment]
  split
  · exact h
  · intro p hp
    rcases mem_foldl_add e.steps sch.schedule hp with h' | h'
    · exact h p h'
    · exact he p h'

theorem allInv_handle_start (sch : Scheduler) (j : String) (t : Option Int) (now : Int)
    (h : AllInv sch) : AllInv (sch.handle_step_start j t now) := by
  rw [Scheduler.handle_step_start]
  cases hj : sch.get_step j with
  | none => exact h
  | some sj =>
    dsimp only
    refine allInv_update_ready _ (allInv_setStep h j ?_)
    obtain ⟨h1, h2, h3⟩ := start_fields sj (some (t.getD now)) now
    exact stepInv_of_fields h1 h2 h3 (allInv_get h hj)

theorem allInv_handle_pause (sch : Scheduler) (j : String) (now : Int)
    (h : AllInv sch) : AllInv (schedOutcome (sch.handle_step_pause j now)) := by
  rw [Scheduler.handle_step_pause]
  cases hj : sch.get_step j with
  | none => exact h
  | some sj =>
    dsimp only
    obtain ⟨h1, h2, h3⟩ := pause_fields sj now
    cases hres : sj.pause now with
    | ok s' =>
      dsimp only [schedOutcome]
      rw [hres] at h1 h2 h3
      exact allInv_setStep h j (stepInv_of_fields h1 h2 h3 (allInv_get h hj))
    | error s' =>
      dsimp only [schedOutcome]
      rw [hres] at h1 h2 h3
      exact allInv_setStep h j (stepInv_of_fields h1 h2 h3 (allInv_get h hj))

theorem allInv_handle_complete (sch : Scheduler) (j : String) (t : Option Int) (now : Int)
    (h : AllInv sch) : AllInv (schedOutcome (sch.handle_step_complete j t now)) := by
  rw [Scheduler.handle_step_complete]
  cases hj : sch.get_step j with
  | none => exact h
  | some sj =>
    dsimp only
    obtain ⟨h1, h2, h3⟩ := complete_fields sj (some (t.getD now)) now
    cases hres : sj.complete (some (t.getD now)) now with
    | ok s' =>
      dsimp only [schedOutcome]
      rw [hres] at h1 h2 h3
      exact allInv_update_ready _
        (allInv_setStep h j (stepInv_of_fields h1 h2 h3 (allInv_get h hj)))
    | error s' =>
      dsimp only [schedOutcome]
      rw [hres] at h1 h2 h3
      exact allInv_setStep h j (stepInv_of_fields h1 h2 h3 (allInv_get h hj))

/-- C8: in every scheduler state reachable through the core's operations
    (construction, registration, the initial scheduling pass, the three
    event handlers, and the readiness pass), every registered step with a
    set scheduled start satisfies scheduled_end = scheduled_start +
    duration. -/
theorem reachable_scheduled_window (sch : Scheduler) (hr : Reach sch) :
    ∀ p ∈ sch.schedule, ∀ t, p.2.scheduled_start_time = some t →
      p.2.scheduled_end_time = some (t + p.2.duration) := by
  have hinv : AllInv sch := by
    induction hr with
    | empty => intro p hp; cases hp
    | add sch e hr he ih =>
      exact allInv_add_experiment ih (fun p hp => isInitStep_inv (he p hp))
    | calcPass sch t now hr ih => exact allInv_calc sch t now ih
    | hstart sch id t now hr ih => exact allInv_handle_start sch id t now ih
    | hpause sch id now hr ih => exact allInv_handle_pause sch id now ih
    | hcomplete sch id t now hr ih => exact allInv_handle_complete sch id t now ih
    | upd sch hr ih => exact allInv_update_ready sch ih
  exact hinv

/-- C8 witness: the invariant applied to the concrete registry entry of
    step c8b in a reachable state built by registering a two-step
    experiment and running the initial pass. -/
theorem reachable_scheduled_window_witness :
    ("c8b", vC8b) ∈ SchedC8.schedule ∧
    vC8b.scheduled_start_time = some 30 ∧
    vC8b.scheduled_end_time = some (30 + vC8b.duration) :=
  ⟨by decide, rfl,
    reachable_scheduled_window SchedC8
      (Reach.calcPass _ (some 0) 0 (Reach.add _ expC8 Reach.empty (by
        intro p hp
        rcases List.mem_cons.mp hp with h | h
        · exact ⟨"c8a", "A", 30, StepType.fixedDuration, [], none, none, [], none,
            by rw [h]⟩
        · rw [List.mem_singleton] at h
          exact ⟨"c8b", "B", 60, StepType.fixedDuration, ["c8a"], none, none, [], none,
            by rw [h]⟩)))
      ("c8b", vC8b) (by decide) 30 rfl⟩

/-- C1: check_for_conflicts is a stub that returns the empty list even
    when the registry holds two distinct Running steps sharing the
    non-empty resource token "microscope", where the spec requires the
    pair to be reported. -/
theorem check_for_conflicts_empty_on_running_conflict :
    SchedC1.check_for_conflicts = ([] : List (Step × Step)) ∧
    SchedC1.get_step "c1c" = some stepC1c ∧
    SchedC1.get_step "c1d" = some stepC1d ∧
    stepC1c.status = StepStatus.running ∧
    stepC1d.status = StepStatus.running ∧
    stepC1c.resource_needed = some "microscope" ∧
    stepC1d.resource_needed = some "microscope" ∧
    "microscope" ≠ "" ∧
    stepC1c.id ≠ stepC1d.id :=
  ⟨rfl, rfl, rfl, rfl, rfl, rfl, rfl, by decide, by decide⟩

/-- C4: pause is rejected without any change (and without raising) for
    the three non-pausable step types in any status and for a Task step
    that is not Running; a Running Task step becomes Paused with the
    active interval now - actual_start added to elapsed. -/
theorem pause_guards (s : Step) (now : Int) :
    ((s.step_type = StepType.fixedDuration ∨ s.step_type = StepType.fixedStart ∨
        s.step_type = StepType.automatedTask) → s.pause now = Except.ok s) ∧
    (s.step_type = StepType.task → s.status ≠ StepStatus.running →
      s.pause now = Except.ok s) ∧
    (∀ t0, s.step_type = StepType.task → s.status = StepStatus.running →
      s.actual_start_time = some t0 →
      s.pause now = Except.ok { s with status := StepStatus.paused
                                       elapsed_time := s.elapsed_time + (now - t0) }) := by
  refine ⟨fun hty => ?_, fun hty hst => ?_, fun t0 hty hst hast => ?_⟩
  · rw [Step.pause, if_pos hty]
  · rw [Step.pause, if_neg (by rw [hty]; simp), if_neg hst]
  · rw [Step.pause, if_neg (by rw [hty]; simp), if_pos hst, hast]

/-- C4 witness: pausing the concrete Running Task step started at 5, at
    time 9, lands it Paused with four minutes of elapsed time. -/
theorem pause_guards_witness :
    stepC4.pause 9 = Except.ok { stepC4 with status := StepStatus.paused
                                             elapsed_time := stepC4.elapsed_time + (9 - 5) } :=
  (pause_guards stepC4 9).2.2 5 rfl rfl rfl

/-- C10: a Task step constructed without an explicit resource gets the
    default token user_attention; any other type constructed without one
    keeps the field unset; hence two default-resource Task steps carry
    the same non-empty resource token, the contention condition for two
    Running steps. -/
theorem task_default_resource (idv namev : String) (dur : Int) (deps : List String)
    (sst : Option Int) (notes : Option String) (md : List (String × String)) :
    (Step.init idv namev dur StepType.task deps sst notes md none).resource_needed
        = some "user_attention" ∧
    (∀ ty, ty ≠ StepType.task →
      (Step.init idv namev dur ty deps sst notes md none).resource_needed = none) ∧
    (∀ id2 name2 dur2 deps2 sst2 notes2 md2,
      ∃ r, (Step.init idv namev dur StepType.task deps sst notes md none).resource_needed
          = some r ∧
        (Step.init id2 name2 dur2 StepType.task deps2 sst2 notes2 md2
          none).resource_needed = some r ∧
        r ≠ "") := by
  refine ⟨rfl, fun ty hty => ?_, fun id2 name2 dur2 deps2 sst2 notes2 md2 =>
    ⟨"user_attention", rfl, rfl, by decide⟩⟩
  cases ty with
  | task => exact absurd rfl hty
  | fixedDuration => rfl
  | fixedStart => rfl
  | automatedTask => rfl

/-- C10 witness: the non-Task clause evaluated at FixedStart. -/
theorem task_default_resource_witness :
    (Step.init "w" "W" 5 StepType.fixedStart [] none none [] none).resource_needed
      = none :=
  (task_default_resource "w" "W" 5 [] none none []).2.1 StepType.fixedStart (by decide)

/-- through any sequence of start/pause rounds, a Ready or Paused task
    step stays pausable and accumulates exactly the paused intervals in
    elapsed_time. -/
theorem runPauses_inv : ∀ (l : List (Int × Int)) (s : Step),
    s.step_type = StepType.task →
    (s.status = StepStatus.ready ∨ s.status = StepStatus.paused) →
    (runPauses s l).step_type = StepType.task ∧
    ((runPauses s l).status = StepStatus.ready ∨
      (runPauses s l).status = StepStatus.paused) ∧
    (runPauses s l).elapsed_time = s.elapsed_time + (l.map (fun p => p.2 - p.1)).sum := by
  intro l
  induction l with
  | nil =>
    intro s hty hst
    exact ⟨hty, hst, by simp [runPauses]⟩
  | cons ab rest ih =>
    intro s hty hst
    have hs1 : stepOutcome ((s.start (some ab.1) ab.1).pause ab.2)
        = { s with actual_start_time := some ab.1
                   status := StepStatus.paused
                   elapsed_time := s.elapsed_time + (ab.2 - ab.1) } := by
      rw [Step.start, if_pos hst, Step.pause]
      rw [if_neg (by simp [hty])]
      rw [if_pos rfl]
      rfl
    rw [runPauses, hs1]
    obtain ⟨h1, h2, h3⟩ := ih { s with actual_start_time := some ab.1
                                       status := StepStatus.paused
                                       elapsed_time := s.elapsed_time + (ab.2 - ab.1) }
        hty (Or.inr rfl)
    refine ⟨h1, h2, ?_⟩
    rw [h3]
    dsimp only
    rw [List.map_cons, List.sum_cons, add_assoc]

/-- C5: complete on a step that is neither Running nor Paused changes
    nothing and raises nothing; on a Paused step it records the end and
    flips to Completed; on a Running step it additionally flushes
    end - actual_start into elapsed; and along any run of start/pause
    rounds of a fresh Ready task step, the final elapsed time is the sum
    of all the active Running intervals. -/
theorem complete_spec (s : Step) (t : Option Int) (now : Int) :
    (s.status ≠ StepStatus.running → s.status ≠ StepStatus.paused →
      s.complete t now = Except.ok s) ∧
    (s.status = StepStatus.paused →
      s.complete t now = Except.ok { s with status := StepStatus.completed
                                            actual_end_time := some (t.getD now) }) ∧
    (∀ t0, s.status = StepStatus.running → s.actual_start_time = some t0 →
      s.complete t now
        = Except.ok { s with status := StepStatus.completed
                             actual_end_time := some (t.getD now)
                             elapsed_time := s.elapsed_time + (t.getD now - t0) }) ∧
    (∀ (l : List (Int × Int)) (a c : Int),
      s.step_type = StepType.task → s.status = StepStatus.ready → s.elapsed_time = 0 →
      ∃ s', ((runPauses s l).start (some a) a).complete (some c) c = Except.ok s' ∧
        s'.status = StepStatus.completed ∧
        s'.actual_end_time = some c ∧
        s'.elapsed_time = (l.map (fun p => p.2 - p.1)).sum + (c - a)) := by
  refine ⟨fun h1 h2 => ?_, fun hst => ?_, fun t0 hst hast => ?_, fun l a c hty hst hel => ?_⟩
  · rw [Step.complete, if_neg ?_]
    intro h
    rcases h with h | h
    · exact h1 h
    · exact h2 h
  · rw [Step.complete, if_pos (Or.inr hst), if_neg (by rw [hst]; simp)]
  · rw [Step.complete, if_pos (Or.inl hst), if_pos hst, hast]
  · obtain ⟨h1, h2, h3⟩ := runPauses_inv l s hty (Or.inl hst)
    have hstart : (runPauses s l).start (some a) a
        = { runPauses s l with actual_start_time := some a
                               status := StepStatus.running } := by
      rw [Step.start, if_pos h2]
      rfl
    have hcomp : ((runPauses s l).start (some a) a).complete (some c) c
        = Except.ok { runPauses s l with actual_start_time := some a
                                         status := StepStatus.completed
                                         actual_end_time := some c
                                         elapsed_time := (runPauses s l).elapsed_time
                                           + (c - a) } := by
      rw [hstart, Step.complete, if_pos (Or.inl rfl), if_pos rfl]
      rfl
    refine ⟨_, hcomp, rfl, rfl, ?_⟩
    dsimp only
    rw [h3, hel, zero_add]

/-- C5 witness: the full run of one pause round and a completion on a
    concrete fresh task step, with elapsed 2 + 4. -/
theorem complete_spec_witness :
    ∃ s', ((runPauses stepC5 [(1, 3)]).start (some 5) 5).complete (some 9) 9
        = Except.ok s' ∧
      s'.status = StepStatus.completed ∧
      s'.actual_end_time = some 9 ∧
      s'.elapsed_time = ([(1, 3)].map (fun p => p.2 - p.1)).sum + (9 - 5) :=
  (complete_spec stepC5 none 0).2.2.2 [(1, 3)] 5 9 rfl rfl rfl

/-- C6 corrected: with a registered step id, handle_step_start always
    runs the readiness pass after applying the transition, and
    handle_step_complete runs it after a non-raising completion; but
    handle_step_pause only applies the pause and returns, with no
    readiness pass. -/
theorem handlers_ready_propagation (sch : Scheduler) (id : String)
    (t : Option Int) (now : Int) (s : Step) (hid : sch.get_step id = some s) :
    sch.handle_step_start id t now
      = (sch.setStep id (s.start (some (t.getD now)) now)).update_ready_status ∧
    (∀ s', s.complete (some (t.getD now)) now = Except.ok s' →
      sch.handle_step_complete id t now
        = Except.ok ((sch.setStep id s').update_ready_status)) ∧
    (∀ s', s.pause now = Except.ok s' →
      sch.handle_step_pause id now = Except.ok (sch.setStep id s')) := by
  refine ⟨?_, fun s' hc => ?_, fun s' hp => ?_⟩
  · rw [Scheduler.handle_step_start, hid]
  · rw [Scheduler.handle_step_complete, hid]
    dsimp only
    rw [hc]
  · rw [Scheduler.handle_step_pause, hid]
    dsimp only
    rw [hp]

/-- C6 counterexample: in a registry where step c6b is Pending with its
    sole dependency Completed, pausing the running task c6c applies the
    pause but leaves c6b Pending, although running the readiness pass on
    the very same state would flip c6b to Ready -- so handle_step_pause
    does not trigger readiness propagation. -/
theorem handle_step_pause_skips_ready_propagation :
    ((schedOutcome (SchedC6.handle_step_pause "c6c" 20)).get_step "c6c").map Step.status
        = some StepStatus.paused ∧
    ((schedOutcome (SchedC6.handle_step_pause "c6c" 20)).get_step "c6b").map Step.status
        = some StepStatus.pending ∧
    ((schedOutcome (SchedC6.handle_step_pause "c6c" 20)).update_ready_status.get_step
        "c6b").map Step.status = some StepStatus.ready :=
  ⟨by decide, by decide, by decide⟩

/-- C6 witness: the corrected handler behavior at the concrete C6
    registry and its running task step. -/
theorem handlers_ready_propagation_witness :
    SchedC6.handle_step_start "c6c" (some 5) 5
      = (SchedC6.setStep "c6c"
          (stepC6c.start (some ((some (5 : Int)).getD 5)) 5)).update_ready_status ∧
    (∀ s', stepC6c.complete (some ((some (5 : Int)).getD 5)) 5 = Except.ok s' →
      SchedC6.handle_step_complete "c6c" (some 5) 5
        = Except.ok ((SchedC6.setStep "c6c" s').update_ready_status)) ∧
    (∀ s', stepC6c.pause 5 = Except.ok s' →
      SchedC6.handle_step_pause "c6c" 5 = Except.ok (SchedC6.setStep "c6c" s')) :=
  handlers_ready_propagation SchedC6 "c6c" (some 5) 5 stepC6c rfl

/-! Round-trip lemmas for the notification wire format. -/

theorem notificationType_parse_val (ty : NotificationType) :
    NotificationType.parse ty.val = some ty := by
  cases ty <;> rfl

theorem notificationPriority_parse_val (pr : NotificationPriority) :
    NotificationPriority.parse pr.val = some pr := by
  cases pr <;> rfl

theorem deliveryMethod_parse_val (dm : DeliveryMethod) :
    DeliveryMethod.parse dm.val = some dm := by
  cases dm <;> rfl

theorem actionType_parse_val (ty : ActionType) :
    ActionType.parse ty.val = some ty := by
  cases ty <;> rfl

theorem parseDeliveryMethods_map (l : List DeliveryMethod) :
    parseDeliveryMethods (l.map DeliveryMethod.val) = some l := by
  induction l with
  | nil => rfl
  | cons d rest ih =>
    rw [List.map_cons, parseDeliveryMethods, deliveryMethod_parse_val, ih]

theorem parseActions_map (l : List NotificationAction) :
    parseActions (l.map NotificationAction.to_dict) = some l := by
  induction l with
  | nil => rfl
  | cons a rest ih =>
    rw [List.map_cons, parseActions, NotificationAction.to_dict]
    dsimp only
    rw [actionType_parse_val, ih]

/-- C9: reconstructing a notification from its wire dict succeeds and
    gives back the same id, type, priority, recipient set, and action
    list (with the same action ids, types, labels and data in the same
    order). -/
theorem notification_roundtrip (n : Notification) :
    ∃ m, Notification.from_dict n.to_dict = some m ∧
      m.id = n.id ∧ m.type = n.type ∧ m.priority = n.priority ∧
      m.target_users = n.target_users ∧ m.actions = n.actions := by
  rw [Notification.to_dict, Notification.from_dict]
  dsimp only
  rw [notificationType_parse_val, notificationPriority_parse_val,
    parseDeliveryMethods_map, parseActions_map]
  exact ⟨_, rfl, rfl, rfl, rfl, rfl, rfl⟩

/-- C2 witness: the readiness-pass characterization at a concrete
    registry in which the pending step's single dependency is Completed
    with actual end 10. -/
theorem update_ready_status_pending_to_ready_witness :
    ∃ s', SchedC2.update_ready_status.get_step "c2b" = some s' ∧
      (stepC2b.status ≠ StepStatus.pending → s' = stepC2b) ∧
      (stepC2b.status = StepStatus.pending →
        ((s'.status = StepStatus.ready) ↔ DepsCompleted SchedC2 stepC2b.dependencies) ∧
        (¬ DepsCompleted SchedC2 stepC2b.dependencies → s' = stepC2b) ∧
        (DepsCompleted SchedC2 stepC2b.dependencies →
          ∃ e, LatestDepEnd SchedC2 stepC2b.dependencies e ∧
            s' = { stepC2b with status := StepStatus.ready
                                earliest_possible_start_time :=
                                  e.orElse (fun _ => stepC2b.earliest_possible_start_time) })) :=
  update_ready_status_pending_to_ready SchedC2 (by decide) "c2b" stepC2b rfl
